import Mathlib

/-!
# Verification of the experiment-orchestration core

Shallow embedding of the repository `experiment_orchestration`:
`src/experiment/experiment.py`, `src/experiment/experiment_exceptions.py`
and `src/experiment/resource_control.py`.

Modeling conventions:
* Python dicts whose values are opaque to the orchestration logic are
  association lists `List (String × Nat)`; `dict.update` replaces the value
  of an existing key in place and appends fresh keys, matching CPython's
  insertion-order semantics for the observations made here (key lookup).
* Exception classes are the inductive `ExcKind`; an escalation sequence
  after flattening by `_create_error_sequence` is a `List ErrEntry`, where
  `ErrEntry.zero` is the literal `0` marker that the flattener appends after
  a repeat-forever entry.
* Fallible Python code (IndexError, KeyError, NameError, unbound attribute)
  is modeled with `Option`/`Except`.
* Stage implementations are external collaborators; a single
  `Stage.start`/`Stage.is_done` call is modeled by the `StageOutcome` the
  collaborator produces at that moment (a normal `(status, next_state)`
  return or one of the control exceptions the Trial catches around that
  call).
-/

/-! ## Python dict model -/

abbrev StateMap := List (String × Nat)

/-- `d[k] = v` on an association list: replace the first binding of `k`
in place, or append a fresh binding. -/
def mapSet : StateMap → String → Nat → StateMap
  | [], k, v => [(k, v)]
  | (k', v') :: rest, k, v =>
    if k' = k then (k, v) :: rest else (k', v') :: mapSet rest k v

/-- Python `dict.update`: fold the bindings of `other` into `m` in order. -/
def updateMap (m other : StateMap) : StateMap :=
  other.foldl (fun acc kv => mapSet acc kv.1 kv.2) m

/-- Key lookup (first binding wins). -/
def lookupMap : StateMap → String → Option Nat
  | [], _ => none
  | (k', v') :: rest, k => if k' = k then some v' else lookupMap rest k

theorem updateMap_nil (m : StateMap) : updateMap m [] = m := rfl

theorem updateMap_cons (m : StateMap) (k : String) (v : Nat) (rest : StateMap) :
    updateMap m ((k, v) :: rest) = updateMap (mapSet m k v) rest := rfl

/-! ## Exception taxonomy (`experiment_exceptions.py`)

The seven `ExperimentException` subclasses, plus `other` for any unrelated
exception class (an "unexpected failure"). -/

inductive ExcKind
  | expAbort
  | expReset
  | trialAbort
  | trialReset
  | stageAbort
  | stageReset
  | ignore
  | other (n : Nat)
deriving DecidableEq, Repr

/-- One element of a flattened error sequence: an exception class, or the
literal `0` appended after a repeat-forever entry by
`_create_error_sequence`. -/
inductive ErrEntry
  | exc (k : ExcKind)
  | zero
deriving DecidableEq, Repr

/-- One element of the compact error-sequence specification handed to a
`Stage`/`Trial`/`Experiment` constructor: a bare exception class, or a
`(class, repeat_count)` tuple. -/
inductive ErrSpec
  | single (k : ExcKind)
  | rep (k : ExcKind) (n : Nat)
deriving DecidableEq, Repr

/-- `_create_error_sequence` (`experiment.py` lines 11-34): flatten the
compact specification.  A `(class, 0)` tuple appends the class followed by
the literal `0`; a `(class, n)` tuple with `n > 0` appends `n` copies of
the class; a bare class is appended as is. -/
def create_error_sequence : List ErrSpec → List ErrEntry
  | [] => []
  | .single k :: rest => .exc k :: create_error_sequence rest
  | .rep k 0 :: rest => .exc k :: .zero :: create_error_sequence rest
  | .rep k (n + 1) :: rest =>
      List.replicate (n + 1) (ErrEntry.exc k) ++ create_error_sequence rest

/-! ## The `handle_exceptions` decorator (`experiment_exceptions.py` 80-107) -/

/-- The exact pass-through set of the decorator's first `except` clause:
`(TrialAbort, TrialReset, StageAbort, StageReset)`. -/
def controlPassthrough : ExcKind → Bool
  | .trialAbort => true
  | .trialReset => true
  | .stageAbort => true
  | .stageReset => true
  | _ => false

/-- The generic `except Exception` clause of `handle_exceptions`: given the
entity's current `error_sequence` and the original raised exception,
return the exception that is re-raised together with the sequence left
behind.  Empty sequence: re-raise the original.  Second element equal to
the literal `0`: raise the front element without popping it.  Otherwise
pop the front element and raise it. -/
def handleUnexpected (seq : List ErrEntry) (orig : ErrEntry) : ErrEntry × List ErrEntry :=
  match seq with
  | [] => (orig, [])
  | e :: rest =>
    if rest.head? = some ErrEntry.zero then (e, e :: rest) else (e, rest)

/-- The whole exception path of `handle_exceptions`: an exception of kind
`k` escapes the wrapped call while the entity holds `seq`.  Control
outcomes in the pass-through tuple are re-raised verbatim; everything
else is routed through the error sequence. -/
def handle_exceptions (k : ExcKind) (seq : List ErrEntry) : ErrEntry × List ErrEntry :=
  if controlPassthrough k then (.exc k, seq) else handleUnexpected seq (.exc k)

/-- A run of consecutive failures, each escaping the wrapped call and being
processed by `handle_exceptions` against the sequence state left by the
previous one.  Returns the raised outcomes in order and the final
sequence. -/
def runFailures (seq : List ErrEntry) : List ExcKind → List ErrEntry × List ErrEntry
  | [] => ([], seq)
  | o :: os =>
    let p := handle_exceptions o seq
    let r := runFailures p.2 os
    (p.1 :: r.1, r.2)

theorem runFailures_nil (seq : List ErrEntry) : runFailures seq [] = ([], seq) := rfl

theorem runFailures_cons (seq : List ErrEntry) (o : ExcKind) (os : List ExcKind) :
    runFailures seq (o :: os) =
      ((handle_exceptions o seq).1 :: (runFailures (handle_exceptions o seq).2 os).1,
        (runFailures (handle_exceptions o seq).2 os).2) := rfl

/-- A sequence with no `0` marker never takes the peek-without-pop branch. -/
theorem handleUnexpected_no_zero (e : ErrEntry) (rest : List ErrEntry) (orig : ErrEntry)
    (hz : ErrEntry.zero ∉ e :: rest) :
    handleUnexpected (e :: rest) orig = (e, rest) := by
  have hz' : rest.head? ≠ some ErrEntry.zero := by
    cases rest with
    | nil => simp
    | cons r rs =>
      intro h
      simp only [List.head?_cons, Option.some.injEq] at h
      exact hz (by simp [h])
  simp [handleUnexpected, hz']

/-- C2: with a zero-free sequence of length `N`, each of the first `N`
unexpected failures pops and raises the front entry, and the `(N+1)`-th
re-raises the original failure; the sequence ends empty. -/
theorem escalation_pops_then_reraises_original (seq : List ErrEntry)
    (origs : List ExcKind) (o : ExcKind)
    (hz : ErrEntry.zero ∉ seq)
    (hlen : origs.length = seq.length)
    (hu : ∀ x ∈ origs ++ [o], controlPassthrough x = false) :
    runFailures seq (origs ++ [o]) = (seq ++ [ErrEntry.exc o], []) := by
  induction seq generalizing origs with
  | nil =>
    have h0 : origs = [] := List.eq_nil_of_length_eq_zero hlen
    subst h0
    have ho : controlPassthrough o = false := hu o (by simp)
    simp [runFailures, handle_exceptions, ho, handleUnexpected]
  | cons e rest ih =>
    cases origs with
    | nil => simp at hlen
    | cons g gs =>
      have hg : controlPassthrough g = false := hu g (by simp)
      have hstep : handle_exceptions g (e :: rest) = (e, rest) := by
        rw [handle_exceptions, if_neg (by simp [hg])]
        exact handleUnexpected_no_zero e rest _ hz
      have hzr : ErrEntry.zero ∉ rest := fun h => hz (by simp [h])
      have hlen' : gs.length = rest.length := by
        simpa using hlen
      have hu' : ∀ x ∈ gs ++ [o], controlPassthrough x = false := by
        intro x hx
        exact hu x (by simpa using Or.inr (by simpa using hx))
      have hrest := ih gs hzr hlen' hu'
      simp [runFailures_cons, hstep, hrest]

theorem escalation_pops_then_reraises_original_witness :
    (ErrEntry.zero ∉ [ErrEntry.exc .stageReset, ErrEntry.exc .trialReset]) ∧
      runFailures [ErrEntry.exc .stageReset, ErrEntry.exc .trialReset]
          ([ExcKind.other 0, ExcKind.other 1] ++ [ExcKind.other 2]) =
        ([ErrEntry.exc .stageReset, ErrEntry.exc .trialReset, ErrEntry.exc (.other 2)], []) :=
  ⟨by decide,
    escalation_pops_then_reraises_original
      [ErrEntry.exc .stageReset, ErrEntry.exc .trialReset]
      [ExcKind.other 0, ExcKind.other 1] (ExcKind.other 2)
      (by decide) (by decide) (by decide)⟩

/-- C6 counterexample: `Ignore` and the Experiment-tier outcomes are not in
the pass-through tuple of `handle_exceptions`; raising `Ignore` (resp.
`ExperimentAbort`) with the policy `[StageReset]` consumes the policy and
raises `StageReset` instead of the control outcome itself. -/
theorem handle_exceptions_ignore_counterexample :
    handle_exceptions .ignore [ErrEntry.exc .stageReset] = (ErrEntry.exc .stageReset, []) ∧
      handle_exceptions .expAbort [ErrEntry.exc .trialReset] = (ErrEntry.exc .trialReset, []) ∧
      (ErrEntry.exc ExcKind.stageReset, ([] : List ErrEntry)) ≠
        (ErrEntry.exc ExcKind.ignore, [ErrEntry.exc ExcKind.stageReset]) := by
  decide

/-- C6 (amended): exactly the four Stage/Trial-tier Abort/Reset outcomes are
re-raised unmodified by `handle_exceptions`, with the escalation sequence
left untouched. -/
theorem handle_exceptions_passthrough_exact (seq : List ErrEntry) :
    handle_exceptions .stageAbort seq = (ErrEntry.exc .stageAbort, seq) ∧
      handle_exceptions .stageReset seq = (ErrEntry.exc .stageReset, seq) ∧
      handle_exceptions .trialAbort seq = (ErrEntry.exc .trialAbort, seq) ∧
      handle_exceptions .trialReset seq = (ErrEntry.exc .trialReset, seq) := by
  refine ⟨?_, ?_, ?_, ?_⟩ <;> simp [handle_exceptions, controlPassthrough]

/-- C7: if the compact specification starts with a repeat-forever entry
`(k, 0)`, every unexpected failure routed through the policy raises `k`,
for arbitrarily many consecutive failures, and the flattened sequence is
never shortened. -/
theorem repeat_forever_front_never_consumed (k : ExcKind) (spec : List ErrSpec)
    (origs : List ExcKind)
    (hu : ∀ x ∈ origs, controlPassthrough x = false) :
    runFailures (create_error_sequence (.rep k 0 :: spec)) origs =
      (List.replicate origs.length (ErrEntry.exc k),
        create_error_sequence (.rep k 0 :: spec)) := by
  induction origs with
  | nil => rfl
  | cons g gs ih =>
    have hg : controlPassthrough g = false := hu g (by simp)
    have hstep :
        handle_exceptions g (create_error_sequence (.rep k 0 :: spec)) =
          (ErrEntry.exc k, create_error_sequence (.rep k 0 :: spec)) := by
      rw [handle_exceptions, if_neg (by simp [hg])]
      simp [create_error_sequence, handleUnexpected]
    have := ih (fun x hx => hu x (by simp [hx]))
    simp [runFailures_cons, hstep, this, List.replicate_succ]

theorem repeat_forever_front_never_consumed_witness :
    (∀ x ∈ [ExcKind.other 7, ExcKind.other 7, ExcKind.other 9],
        controlPassthrough x = false) ∧
      runFailures (create_error_sequence [.rep .ignore 0, .single .trialReset])
          [ExcKind.other 7, ExcKind.other 7, ExcKind.other 9] =
        (List.replicate 3 (ErrEntry.exc .ignore),
          create_error_sequence [.rep .ignore 0, .single .trialReset]) :=
  ⟨by decide,
    repeat_forever_front_never_consumed .ignore [.single .trialReset]
      [ExcKind.other 7, ExcKind.other 7, ExcKind.other 9] (by decide)⟩

/-! ## Resource arbitration (`resource_control.py`)

The bounded counting primitives behind a `ResourceWarden` are modeled as a
pool mapping resource names to their currently available permit count.
`acquire` on a primitive is modeled by its observable outcome in the
single-control-thread setting: it succeeds (and consumes one permit) when a
permit is available, and reports failure otherwise (a non-blocking or
timed-out acquire); `block`/`timeout` knobs only select that outcome.
A missing name is a Python `KeyError`, modeled as `none`. -/

abbrev Pool := List (String × Nat)

def poolGet : Pool → String → Option Nat
  | [], _ => none
  | (k', c) :: rest, k => if k' = k then some c else poolGet rest k

def poolSet : Pool → String → Nat → Pool
  | [], _, _ => []
  | (k', c) :: rest, k, v =>
    if k' = k then (k', v) :: rest else (k', c) :: poolSet rest k v

/-- `resource_dict[name].acquire(...)`: `some (granted, pool_after)`, or
`none` for a `KeyError`. -/
def semAcquire (p : Pool) (k : String) : Option (Bool × Pool) :=
  match poolGet p k with
  | none => none
  | some 0 => some (false, p)
  | some (c + 1) => some (true, poolSet p k c)

/-- `resource_dict[name].release()`. -/
def semRelease (p : Pool) (k : String) : Option Pool :=
  match poolGet p k with
  | none => none
  | some c => some (poolSet p k (c + 1))

/-- `ResourceWarden.release(*resources)` (lines 34-39): release each name
in order, returning the released names. -/
def warden_release (p : Pool) : List String → Option (Pool × List String)
  | [] => some (p, [])
  | r :: rs =>
    match semRelease p r with
    | none => none
    | some p' =>
      match warden_release p' rs with
      | none => none
      | some (p'', l) => some (p'', r :: l)

/-- One acquisition spec handed to `ResourceWarden.acquire`: a plain name,
or a per-resource option mapping (modeled by its keys in iteration order;
the option values only parameterize the primitive's own acquire). -/
inductive RSpec
  | name (s : String)
  | opts (keys : List String)
deriving DecidableEq, Repr

/-- The inner `for r in resource` loop of `ResourceWarden.acquire` for a
mapping spec: acquire each key in order, appending granted keys to
`acquired` and overwriting `success` with each key's outcome. -/
def keysAcquire (p : Pool) (acq : List String) (succ : Option Bool) :
    List String → Option (Pool × List String × Option Bool)
  | [] => some (p, acq, succ)
  | k :: ks =>
    match semAcquire p k with
    | none => none
    | some (ok, p') =>
      keysAcquire p' (if ok then acq ++ [k] else acq) (some ok) ks

/-- Process one spec of `ResourceWarden.acquire`, yielding the new pool,
the grown `acquired` list and the value of the `success` variable. -/
def specAcquire (p : Pool) (acq : List String) (succ : Option Bool) :
    RSpec → Option (Pool × List String × Option Bool)
  | .name s =>
    match semAcquire p s with
    | none => none
    | some (ok, p') => some (p', (if ok then acq ++ [s] else acq), some ok)
  | .opts keys => keysAcquire p acq succ keys

/-- The body of `ResourceWarden.acquire` (lines 15-32): iterate the specs
in order; after each spec, `if not success` releases everything acquired
so far in this call and returns the empty list.  `succ = none` models the
`success` variable being still unbound (`NameError` if tested). -/
def acquireGo (p : Pool) (acq : List String) (succ : Option Bool) :
    List RSpec → Option (Pool × List String)
  | [] => some (p, acq)
  | spec :: rest =>
    match specAcquire p acq succ spec with
    | none => none
    | some (p', acq', succ') =>
      match succ' with
      | none => none
      | some true => acquireGo p' acq' (some true) rest
      | some false =>
        match warden_release p' acq' with
        | none => none
        | some (p'', _) => some (p'', [])

/-- `ResourceWarden.acquire(*resources)`. -/
def warden_acquire (p : Pool) (specs : List RSpec) : Option (Pool × List String) :=
  acquireGo p [] none specs

/-- The names a spec list asks for, in attempt order. -/
def specNames : List RSpec → List String
  | [] => []
  | .name s :: rest => s :: specNames rest
  | .opts keys :: rest => keys ++ specNames rest

/-- C3 counterexample: `acquire("a", {"b": opts, "c": opts})` against a pool
where `b` has no free permit but `a` and `c` do.  The acquisition of `b`
fails, yet because `success` is only tested after the whole mapping loop,
the later success of `c` masks it: the call returns `["a", "c"]` (not the
empty list) and leaves both `a` and `c` consumed. -/
theorem warden_acquire_partial_dict_counterexample :
    poolGet [("a", 1), ("b", 0), ("c", 1)] "b" = some 0 ∧
      warden_acquire [("a", 1), ("b", 0), ("c", 1)]
          [RSpec.name "a", RSpec.opts ["b", "c"]] =
        some ([("a", 0), ("b", 0), ("c", 0)], ["a", "c"]) ∧
      (["a", "c"] : List String) ≠ [] := by
  decide

/-- `ResourceContainer` (lines 41-88): the ordered ledger of held resource
names plus the `chunk_marker` boundary index. -/
structure ResourceContainer where
  resources : List String
  chunk_marker : Nat
deriving DecidableEq, Repr

/-- `ResourceContainer.release(index)` (lines 62-74).  `self.resources[index]`
with Python's negative indexing (IndexError modeled as `none`); the warden
release of that single name is modeled as succeeding (its truthiness test
`if resource:` then passes), the entry is popped, and the marker is
decremented when `(len(self.resources) + index) % len(self.resources)` —
computed with the length *after* the pop and the raw `index` — is below the
marker.  Python `%` with a positive modulus agrees with `Int.emod`.  The
decrement branch requires `chunk_marker > 0`, so the source's
below-zero guard never fires and truncated subtraction is exact. -/
def ResourceContainer.release (c : ResourceContainer) (index : Int) :
    Option ResourceContainer :=
  let L : Int := c.resources.length
  let pos : Int := if index < 0 then L + index else index
  if 0 ≤ pos ∧ pos < L then
    let resources' := c.resources.eraseIdx pos.toNat
    let L' : Int := resources'.length
    let marker' :=
      if 0 < L' ∧ (L' + index) % L' < (c.chunk_marker : Int) then
        c.chunk_marker - 1
      else c.chunk_marker
    some { resources := resources', chunk_marker := marker' }
  else none

/-- C4: evaluation at the failing input.  Ledger `["a", "b"]`, marker `1`
(so the current chunk is the trailing region `["b"]`), default release of
the last entry: the released position `1` is *not* before the marker, yet
the code decrements the marker to `0`.  A second corner: releasing the
only entry of `["a"]` under marker `1` leaves the marker at `1`, above the
new ledger length `0`, though position `0` was before the marker. -/
theorem container_release_marker_at_failing_input :
    ResourceContainer.release { resources := ["a", "b"], chunk_marker := 1 } (-1) =
        some { resources := ["a"], chunk_marker := 0 } ∧
      ResourceContainer.release { resources := ["a"], chunk_marker := 1 } (-1) =
        some { resources := [], chunk_marker := 1 } := by
  decide

/-! ### C3 amended: all-or-nothing rollback for simple specs -/

/-- A spec that the rollback logic handles correctly: a plain name, or a
mapping with exactly one entry (so `success` reflects that entry). -/
def simpleSpec : RSpec → Prop
  | .name _ => True
  | .opts keys => keys.length = 1

instance : DecidablePred simpleSpec := by
  intro s
  cases s with
  | name s => exact isTrue trivial
  | opts keys => exact inferInstanceAs (Decidable (keys.length = 1))

theorem poolGet_poolSet_self (p : Pool) (k : String) (v : Nat) :
    poolGet (poolSet p k v) k = if (poolGet p k).isSome then some v else none := by
  induction p with
  | nil => simp [poolGet, poolSet]
  | cons kv rest ih =>
    obtain ⟨k', c⟩ := kv
    by_cases h : k' = k <;> simp [poolGet, poolSet, h, ih]


theorem poolGet_poolSet_other (p : Pool) (k k' : String) (v : Nat) (h : ¬ k' = k) :
    poolGet (poolSet p k v) k' = poolGet p k' := by
  induction p with
  | nil => simp [poolGet, poolSet]
  | cons kv rest ih =>
    obtain ⟨k0, c⟩ := kv
    by_cases h0 : k0 = k
    · have h1 : ¬ k0 = k' := fun hh => h (by rw [← hh]; exact h0)
      have h2 : ¬ k = k' := fun hh => h hh.symm
      simp [poolGet, poolSet, h0, h1, h2]
    · simp [poolGet, poolSet, h0, ih]

/-- Invariant tying the current pool to the pre-call pool `p0` through the
`acquired` list: every name's free count is its original count minus its
number of acquisitions during this call, each acquisition is backed by an
original permit, and every acquired name exists in the pool. -/
def releasable (p : Pool) (acq : List String) (p0 : Pool) : Prop :=
  (∀ k, poolGet p k = (poolGet p0 k).map (fun c => c - acq.count k)) ∧
    (∀ k c, poolGet p0 k = some c → acq.count k ≤ c) ∧
    (∀ k ∈ acq, (poolGet p0 k).isSome)

theorem releasable_refl (p : Pool) : releasable p [] p := by
  refine ⟨fun k => ?_, fun k c _ => by simp, fun k h => by simp at h⟩
  cases h : poolGet p k <;> simp [h]

/-- A successful primitive acquisition extends the invariant. -/
theorem releasable_acquire (p : Pool) (acq : List String) (p0 : Pool) (s : String)
    (c : Nat) (hs : poolGet p s = some (c + 1)) (hinv : releasable p acq p0) :
    releasable (poolSet p s c) (acq ++ [s]) p0 := by
  obtain ⟨h1, h2, h3⟩ := hinv
  obtain ⟨c0, hp0, hc0⟩ : ∃ c0, poolGet p0 s = some c0 ∧ c0 - List.count s acq = c + 1 := by
    have hh := h1 s
    rw [hs] at hh
    cases h0 : poolGet p0 s with
    | none => rw [h0] at hh; simp at hh
    | some c0 =>
      rw [h0] at hh
      simp only [Option.map_some'] at hh
      exact ⟨c0, rfl, ((Option.some.injEq _ _).mp hh).symm⟩
  have hcnt : List.count s acq ≤ c0 := h2 s c0 hp0
  refine ⟨fun k => ?_, fun k cc hcc => ?_, fun k hk => ?_⟩
  · by_cases hk : k = s
    · subst hk
      rw [poolGet_poolSet_self, hs]
      simp only [Option.isSome_some, if_true]
      rw [hp0]
      simp only [Option.map_some']
      have hc : List.count k (acq ++ [k]) = List.count k acq + 1 := by
        simp [List.count_append]
      rw [hc]
      congr 1
      omega
    · rw [poolGet_poolSet_other p s k c hk]
      have hsk : ¬ s = k := fun hh => hk hh.symm
      have hc : List.count k (acq ++ [s]) = List.count k acq := by
        simp [List.count_append, List.count_singleton', hsk]
      rw [hc]
      exact h1 k
  · by_cases hk : k = s
    · subst hk
      have hceq : c0 = cc := by
        rw [hp0] at hcc
        exact (Option.some.injEq _ _).mp hcc
      have hc : List.count k (acq ++ [k]) = List.count k acq + 1 := by
        simp [List.count_append]
      rw [hc]
      omega
    · have hsk : ¬ s = k := fun hh => hk hh.symm
      have hc : List.count k (acq ++ [s]) = List.count k acq := by
        simp [List.count_append, List.count_singleton', hsk]
      rw [hc]
      exact h2 k cc hcc
  · rcases List.mem_append.mp hk with hmem | hmem
    · exact h3 k hmem
    · have : k = s := by simpa using hmem
      subst this
      simp [hp0]

/-- Releasing exactly the acquired names restores the pre-call pool. -/
theorem warden_release_restores (acq : List String) : ∀ p p0 : Pool,
    releasable p acq p0 →
    ∃ p', warden_release p acq = some (p', acq) ∧ ∀ k, poolGet p' k = poolGet p0 k := by
  induction acq with
  | nil =>
    intro p p0 hinv
    refine ⟨p, rfl, fun k => ?_⟩
    have hh := hinv.1 k
    cases h0 : poolGet p0 k with
    | none => rw [h0] at hh; simpa using hh
    | some c => rw [h0] at hh; simpa using hh
  | cons a rest ih =>
    intro p p0 hinv
    obtain ⟨h1, h2, h3⟩ := hinv
    obtain ⟨c0, hp0⟩ : ∃ c0, poolGet p0 a = some c0 := by
      have ha := h3 a (by simp)
      cases h0 : poolGet p0 a with
      | none => rw [h0] at ha; simp at ha
      | some c0 => exact ⟨c0, rfl⟩
    have hpa : poolGet p a = some (c0 - List.count a (a :: rest)) := by
      have hh := h1 a
      rw [hp0] at hh
      simpa using hh
    have hrel : semRelease p a =
        some (poolSet p a (c0 - List.count a (a :: rest) + 1)) := by
      simp [semRelease, hpa]
    have hcle : List.count a (a :: rest) ≤ c0 := h2 a c0 hp0
    have hcc : List.count a (a :: rest) = List.count a rest + 1 := by
      simp [List.count_cons]
    have hinv' :
        releasable (poolSet p a (c0 - List.count a (a :: rest) + 1)) rest p0 := by
      refine ⟨fun k => ?_, fun k cc hcc2 => ?_, fun k hk => ?_⟩
      · by_cases hk : k = a
        · subst hk
          rw [poolGet_poolSet_self, hpa]
          simp only [Option.isSome_some, if_true]
          rw [hp0]
          simp only [Option.map_some']
          congr 1
          omega
        · rw [poolGet_poolSet_other p a k _ hk]
          have hak : ¬ a = k := fun hh => hk hh.symm
          have hc : List.count k (a :: rest) = List.count k rest := by
            simp [List.count_cons, hak]
          have hh := h1 k
          rw [hc] at hh
          exact hh
      · have hle : List.count k rest ≤ List.count k (a :: rest) := by
          by_cases hak : a = k <;> simp [List.count_cons, hak]
        exact le_trans hle (h2 k cc hcc2)
      · exact h3 k (List.mem_cons_of_mem a hk)
    obtain ⟨p', hw, hrestore⟩ := ih _ _ hinv'
    refine ⟨p', ?_, hrestore⟩
    simp only [warden_release, hrel]
    rw [hw]

/-- Main induction for the amended C3: processing simple specs from a state
satisfying the invariant either grants everything requested, in order, or
returns the empty list with the pre-call pool restored. -/
theorem acquireGo_rollback (specs : List RSpec) : ∀ (p : Pool) (acq : List String)
    (succ : Option Bool) (p0 : Pool),
    (∀ s ∈ specs, simpleSpec s) →
    (∀ n ∈ specNames specs, (poolGet p0 n).isSome) →
    releasable p acq p0 →
    ∃ res, acquireGo p acq succ specs = some res ∧
      (res.2 = acq ++ specNames specs ∨
        (res.2 = [] ∧ ∀ k, poolGet res.1 k = poolGet p0 k)) := by
  induction specs with
  | nil =>
    intro p acq succ p0 _ _ _
    exact ⟨(p, acq), rfl, Or.inl (by simp [specNames])⟩
  | cons spec rest ih =>
    intro p acq succ p0 hsimple hpres hinv
    have hgetp : ∀ n, (poolGet p0 n).isSome → ∃ cn, poolGet p n =
        some (cn - List.count n acq) ∧ poolGet p0 n = some cn := by
      intro n hn
      cases h0 : poolGet p0 n with
      | none => rw [h0] at hn; simp at hn
      | some cn =>
        have hh := hinv.1 n
        rw [h0] at hh
        exact ⟨cn, by simpa using hh, rfl⟩
    -- the single name this simple spec attempts, and the fact that the
    -- spec is processed like one primitive acquisition
    obtain ⟨s, hsn, hspec⟩ :
        ∃ s, specNames (spec :: rest) = s :: specNames rest ∧
          specAcquire p acq succ spec =
            (semAcquire p s).map
              (fun g => (g.2, (if g.1 then acq ++ [s] else acq), some g.1)) := by
      cases spec with
      | name s =>
        refine ⟨s, rfl, ?_⟩
        cases hsem : semAcquire p s with
        | none => simp [specAcquire, hsem]
        | some g =>
          obtain ⟨ok, p1⟩ := g
          simp [specAcquire, hsem]
      | opts keys =>
        have hk : simpleSpec (.opts keys) := hsimple _ (by simp)
        obtain ⟨k, hkeq⟩ : ∃ k, keys = [k] := by
          cases keys with
          | nil => simp [simpleSpec] at hk
          | cons k ks =>
            cases ks with
            | nil => exact ⟨k, rfl⟩
            | cons a b => simp [simpleSpec] at hk
        subst hkeq
        refine ⟨k, by simp [specNames], ?_⟩
        cases hsem : semAcquire p k with
        | none => simp [specAcquire, keysAcquire, hsem]
        | some g =>
          obtain ⟨ok, p1⟩ := g
          simp [specAcquire, keysAcquire, hsem]
    have hs0 : (poolGet p0 s).isSome := hpres s (by rw [hsn]; simp)
    obtain ⟨cn, hpn, hp0n⟩ := hgetp s hs0
    cases hc : cn - List.count s acq with
    | zero =>
      -- the acquisition fails: release everything acquired during this call
      rw [hc] at hpn
      have hsem : semAcquire p s = some (false, p) := by simp [semAcquire, hpn]
      obtain ⟨p', hw, hrestore⟩ := warden_release_restores acq p p0 hinv
      refine ⟨(p', []), ?_, Or.inr ⟨rfl, hrestore⟩⟩
      simp [acquireGo, hspec, hsem, hw]
    | succ c =>
      -- the acquisition succeeds: the invariant extends and the tail runs
      rw [hc] at hpn
      have hsem : semAcquire p s = some (true, poolSet p s c) := by
        simp [semAcquire, hpn]
      have hinv' := releasable_acquire p acq p0 s c hpn hinv
      have hsimple' : ∀ x ∈ rest, simpleSpec x := fun x hx => hsimple x (by simp [hx])
      have hpres' : ∀ n ∈ specNames rest, (poolGet p0 n).isSome := by
        intro n hn
        exact hpres n (by rw [hsn]; simp [hn])
      obtain ⟨res, hgo, hres⟩ :=
        ih (poolSet p s c) (acq ++ [s]) (some true) p0 hsimple' hpres' hinv'
      refine ⟨res, ?_, ?_⟩
      · simp [acquireGo, hspec, hsem, hgo]
      · rcases hres with h | h
        · left
          rw [h, hsn]
          simp
        · right
          exact h

/-- C3 (amended): for every `ResourceWarden.acquire` call whose specs are
plain names or single-entry option mappings, over a pool containing every
requested name, the attempts happen strictly in the given order and either
every requested resource is granted (in order), or — as soon as one
acquisition fails — every resource acquired during this same call is
released, the pool is restored to its pre-call counts (resources held from
earlier calls untouched), and the empty result is returned. -/
theorem warden_acquire_rollback_simple_specs (p : Pool) (specs : List RSpec)
    (hsimple : ∀ s ∈ specs, simpleSpec s)
    (hpres : ∀ n ∈ specNames specs, (poolGet p n).isSome) :
    ∃ res, warden_acquire p specs = some res ∧
      (res.2 = specNames specs ∨
        (res.2 = [] ∧ ∀ k, poolGet res.1 k = poolGet p k)) := by
  have h := acquireGo_rollback specs p [] none p hsimple hpres (releasable_refl p)
  simpa [warden_acquire] using h

theorem warden_acquire_rollback_simple_specs_witness :
    (∀ n ∈ specNames [RSpec.name "a", RSpec.opts ["b"], RSpec.name "c"],
        (poolGet [("a", 2), ("b", 0), ("c", 1)] n).isSome) ∧
      ∃ res, warden_acquire [("a", 2), ("b", 0), ("c", 1)]
            [RSpec.name "a", RSpec.opts ["b"], RSpec.name "c"] = some res ∧
        (res.2 = specNames [RSpec.name "a", RSpec.opts ["b"], RSpec.name "c"] ∨
          (res.2 = [] ∧ ∀ k, poolGet res.1 k = poolGet [("a", 2), ("b", 0), ("c", 1)] k)) :=
  ⟨by decide,
    warden_acquire_rollback_simple_specs [("a", 2), ("b", 0), ("c", 1)]
      [RSpec.name "a", RSpec.opts ["b"], RSpec.name "c"]
      (by intro s hs; fin_cases hs <;> simp [simpleSpec]) (by decide)⟩

/-! ## The Trial state machine (`experiment.py` 37-333)

A `Stage`/`BlockingStage` instance is reduced to what the Trial observes of
it: the `isinstance(current_stage, BlockingStage)` test (a `blocking` flag
fixed at registration) and its per-instance error sequence.  The write-only
bookkeeping fields of the Python `Trial` (`multiple_results`, `errors`,
`fails`) and the unused `TrialResults.metadata` mapping are not modeled;
`results` is the `TrialResults.data` list that `add_data` appends to. -/

structure Stage where
  blocking : Bool
  error_sequence : List ErrEntry
  original_error_sequence : List ErrEntry
deriving DecidableEq, Repr

structure Trial where
  error_sequence : List ErrEntry
  original_error_sequence : List ErrEntry
  stages : List Stage
  stage_args : List StateMap
  state : StateMap
  state_checkpoint : StateMap
  initial_state : StateMap
  stage_index : Nat
  running : Bool
  done : Bool
  results : List Nat
  initial_results : List Nat
deriving DecidableEq, Repr

/-- `Trial.__init__` (lines 100-127).  `stage_args` is an attribute that
only exists after `setup`/`new_trial`; the freshly constructed Trial is
modeled with an empty list, and the operations that would hit the missing
attribute (`reset` before any `new_trial`) fail on the empty list just as
Python fails on the unbound attribute.  Note `done = True` at init: the
sentinel meaning "ready to receive the first argument set". -/
def Trial.init (stages : List Stage) (initial_state : StateMap)
    (error_sequence : List ErrSpec) (results : List Nat) : Trial :=
  { error_sequence := create_error_sequence error_sequence
    original_error_sequence := create_error_sequence error_sequence
    stages := stages
    stage_args := []
    state := initial_state
    state_checkpoint := initial_state
    initial_state := initial_state
    stage_index := 0
    running := false
    done := true
    results := results
    initial_results := results }

/-- What one `start`/`is_done` call on the current stage produces, as
observed by `Trial.run`: a normal `(status, next_state)` return, or one of
the three control exceptions caught around the call.  (Exceptions that are
not caught there — Trial/Experiment-tier outcomes and unexpected failures —
escape `run` into `handle_exceptions` and are covered by the
`handle_exceptions` model above.) -/
inductive StageOutcome
  | ret (status : Nat) (next : StateMap)
  | stageAbort
  | stageReset
  | ignore
deriving DecidableEq, Repr

/-- The `trial_results` values of one partial update, in order: a singleton
when the key is present, else empty.  `Trial.run` appends these to the
results accumulator via `TrialResults.add_data`. -/
def trs (m : StateMap) : List Nat := (lookupMap m "trial_results").toList

/-- `Trial.next_stage` (lines 178-184): bump the cursor, merge that stage's
`stage_args` entry into the state (IndexError passes silently), clear the
running flag. -/
def Trial.next_stage (t : Trial) : Trial :=
  { t with
    stage_index := t.stage_index + 1
    state :=
      match t.stage_args[t.stage_index + 1]? with
      | some a => updateMap t.state a
      | none => t.state
    running := false }

/-- `Trial.reset_stage` (lines 129-131). -/
def Trial.reset_stage (t : Trial) : Trial :=
  { t with running := false, state := t.state_checkpoint }

/-- `Trial.set_done` (lines 175-176). -/
def Trial.set_done (t : Trial) : Trial :=
  { t with done := true }

/-- `Trial.setup` (lines 152-153). -/
def Trial.setup (t : Trial) (stage_args : List StateMap) : Trial :=
  { t with stage_args := stage_args }

/-- `Trial.reset` (lines 133-147): restore the state from `initial_state`,
re-checkpoint, overlay the first stage's arguments, zero the cursor and
flags, restore the results accumulator.  The per-stage error sequences are
*not* reset (that loop is commented out in the source), and neither is the
trial's own `error_sequence`.  `stage_args[0]` on an empty list is the
IndexError/unbound-attribute failure, modeled as `none`. -/
def Trial.reset (t : Trial) : Option Trial :=
  match t.stage_args.head? with
  | none => none
  | some a0 =>
    some { t with
      state := updateMap t.initial_state a0
      state_checkpoint := t.initial_state
      done := false
      stage_index := 0
      running := false
      results := t.initial_results }

/-- `Trial.new_trial` (lines 155-173): full reinitialization between
independent runs.  `stage_args = None` defaults to one empty overlay per
stage; the keyword overrides are merged *into `initial_state` in place*
before the state is rebuilt from it; the trial's own error sequence and
every owned stage's error sequence are restored from their originals. -/
def Trial.new_trial (t : Trial) (stage_args : Option (List StateMap))
    (kwargs : StateMap) : Option Trial :=
  let sa :=
    match stage_args with
    | none => List.replicate t.stages.length ([] : StateMap)
    | some l => l
  match sa.head? with
  | none => none
  | some a0 =>
    let init' := updateMap t.initial_state kwargs
    some { t with
      error_sequence := t.original_error_sequence
      initial_state := init'
      state := updateMap init' a0
      state_checkpoint := init'
      stage_args := sa
      done := false
      stage_index := 0
      results := t.initial_results
      running := false
      stages := t.stages.map fun s => { s with error_sequence := s.original_error_sequence } }

/-- `TrialResults.add_data` applied to the `trial_results` key of a partial
update, if present (`Trial.run` lines 252-253, 282-283, 315-316). -/
def Trial.add_results (t : Trial) (m : StateMap) : Trial :=
  { t with results := t.results ++ trs m }

/-- The exception `Trial.run` itself hits in its modeled paths:
`self.stages[self.stage_index]` out of range. -/
inductive RunExc
  | indexError
deriving DecidableEq, Repr

/-- The tail of `Trial.run` (lines 327-333): mark Done and return the
results when the cursor just moved past the last stage. -/
def Trial.finish (t : Trial) (just_finished : Nat) : Trial × Nat × Option (List Nat) :=
  if t.stage_index = t.stages.length ∧ just_finished ≠ 0 then
    ({ t with done := true }, 1, some t.results)
  else (t, 0, none)

/-- `Trial.run` (lines 211-333), one invocation.  The single stage call the
invocation makes (`start` when the stage is not running, `is_done` when it
is) is represented by the `StageOutcome` `o` the stage produces; a Done
trial makes no stage call and ignores `o`.  The returned triple is the new
trial object together with Python's `(status, results-or-None)` pair. -/
def Trial.run (t : Trial) (o : StageOutcome) :
    Except RunExc (Trial × Nat × Option (List Nat)) :=
  if t.done then .ok (t, 1, none)
  else
    match t.stages[t.stage_index]? with
    | none => .error .indexError
    | some current_stage =>
      if t.running = false then
        -- snapshot the state, then start the current stage
        let t1 := { t with state_checkpoint := t.state }
        if current_stage.blocking then
          let sn : Nat × StateMap :=
            match o with
            | .ret s n => (s, n)
            | .stageAbort => (1, [])       -- StageAbort: continue to next stage
            | .stageReset => (0, [])       -- StageReset == Ignore for blocking
            | .ignore => (0, [])
          let t2 := t1.add_results sn.2
          let t3 := { t2 with state := updateMap t2.state sn.2 }
          if sn.1 ≠ 0 then .ok ((t3.next_stage).finish 1)
          else .ok (t3.finish 0)
        else
          match o with
          | .stageAbort =>
            -- just_finished is set and next_stage runs, but the call
            -- returns (0, None) before the completion check at the tail
            .ok (t1.next_stage, 0, none)
          | .stageReset => .ok (t1, 0, none)
          | .ignore => .ok (t1, 0, none)
          | .ret status next =>
            let t2 := t1.add_results next
            let t3 := { t2 with state := updateMap t2.state next }
            let t4 := if status ≠ 0 then { t3 with running := true } else t3
            .ok (t4.finish 0)
      else
        -- stage is running: poll is_done
        match o with
        | .stageAbort => .ok (t.next_stage, 0, none)
        | .stageReset => .ok (t.reset_stage, 0, none)
        | .ignore => .ok (t, 0, none)
        | .ret status next =>
          let t2 := t.add_results next
          let t3 := { t2 with state := updateMap t2.state next }
          if status ≠ 0 then .ok (({ t3.next_stage with running := false }).finish 1)
          else .ok (t3.finish 0)

/-- A sequence of `Trial.run` invocations, one per listed stage outcome,
collecting each invocation's `(status, results)` return. -/
def Trial.runSeq (t : Trial) : List StageOutcome →
    Except RunExc (Trial × List (Nat × Option (List Nat)))
  | [] => .ok (t, [])
  | o :: os =>
    match t.run o with
    | .error e => .error e
    | .ok (t', s, r) =>
      match t'.runSeq os with
      | .error e => .error e
      | .ok (t'', outs) => .ok (t'', (s, r) :: outs)

/-- The single non-blocking stage of the C5 failing input (no error
sequence). -/
def c5Stage : Stage :=
  { blocking := false, error_sequence := [], original_error_sequence := [] }

/-- The C5 failing input: a freshly argument-fed Trial with one
non-blocking stage (the value `Trial.new_trial` produces from
`Trial.init [c5Stage] [] [] []` with default arguments). -/
def c5Trial : Trial :=
  { error_sequence := []
    original_error_sequence := []
    stages := [c5Stage]
    stage_args := [[]]
    state := []
    state_checkpoint := []
    initial_state := []
    stage_index := 0
    running := false
    done := false
    results := []
    initial_results := [] }

/-- C5: evaluation at the failing input.  A one-stage Trial whose
non-blocking stage raises `StageAbort` during `start`: `run` advances
`stage_index` to `1 = len(stages)` but returns `(0, None)` without marking
the Trial Done (the early `return` skips the completion check at lines
327-333), and the very next `run` call raises `IndexError` from
`self.stages[self.stage_index]`. -/
theorem trial_stageabort_nonblocking_at_failing_input :
    (Trial.init [c5Stage] [] [] []).new_trial none [] = some c5Trial ∧
      c5Trial.run .stageAbort = .ok ({ c5Trial with stage_index := 1 }, 0, none) ∧
      ({ c5Trial with stage_index := 1 }).done = false ∧
      ({ c5Trial with stage_index := 1 }).stage_index = c5Trial.stages.length ∧
      ({ c5Trial with stage_index := 1 }).run (.ret 1 []) = .error .indexError := by
  refine ⟨?_, ?_, ?_, ?_, ?_⟩ <;> rfl

/-! ### Branch equations for `Trial.run` -/

/-- The state effect shared by every normal-return `start` call: snapshot
the checkpoint, append any `trial_results` value, merge the update. -/
def Trial.startEffect (t : Trial) (n : StateMap) : Trial :=
  { t with
    state_checkpoint := t.state
    state := updateMap t.state n
    results := t.results ++ trs n }

/-- The state effect of a normal-return `is_done` call (no checkpoint). -/
def Trial.pollEffect (t : Trial) (n : StateMap) : Trial :=
  { t with
    state := updateMap t.state n
    results := t.results ++ trs n }

theorem finish_zero (t : Trial) : t.finish 0 = (t, 0, none) := by
  simp [Trial.finish]

theorem finish_one (t : Trial) :
    t.finish 1 =
      if t.stage_index = t.stages.length then ({ t with done := true }, 1, some t.results)
      else (t, 0, none) := by
  by_cases h : t.stage_index = t.stages.length <;> simp [Trial.finish, h]

theorem run_done (t : Trial) (o : StageOutcome) (h : t.done = true) :
    t.run o = .ok (t, 1, none) := by
  simp [Trial.run, h]

theorem run_index_error (t : Trial) (o : StageOutcome) (hdone : t.done = false)
    (hst : t.stages[t.stage_index]? = none) : t.run o = .error .indexError := by
  simp [Trial.run, hdone, hst]

theorem run_pending_zero (t : Trial) (stg : Stage) (n : StateMap)
    (hdone : t.done = false) (hrun : t.running = false)
    (hst : t.stages[t.stage_index]? = some stg) :
    t.run (.ret 0 n) = .ok (t.startEffect n, 0, none) := by
  cases hbl : stg.blocking <;>
    simp [Trial.run, hdone, hrun, hst, hbl, Trial.add_results, finish_zero,
      Trial.startEffect]

theorem run_pending_blocking_succ (t : Trial) (stg : Stage) (s : Nat) (n : StateMap)
    (hdone : t.done = false) (hrun : t.running = false)
    (hst : t.stages[t.stage_index]? = some stg) (hbl : stg.blocking = true)
    (hs : s ≠ 0) :
    t.run (.ret s n) = .ok (((t.startEffect n).next_stage).finish 1) := by
  simp [Trial.run, hdone, hrun, hst, hbl, hs, Trial.add_results, Trial.startEffect]

theorem run_pending_nonblocking_succ (t : Trial) (stg : Stage) (s : Nat) (n : StateMap)
    (hdone : t.done = false) (hrun : t.running = false)
    (hst : t.stages[t.stage_index]? = some stg) (hbl : stg.blocking = false)
    (hs : s ≠ 0) :
    t.run (.ret s n) = .ok ({ t.startEffect n with running := true }, 0, none) := by
  simp [Trial.run, hdone, hrun, hst, hbl, hs, Trial.add_results, finish_zero,
    Trial.startEffect]

theorem run_pending_blocking_abort (t : Trial) (stg : Stage)
    (hdone : t.done = false) (hrun : t.running = false)
    (hst : t.stages[t.stage_index]? = some stg) (hbl : stg.blocking = true) :
    t.run .stageAbort = .ok (((t.startEffect []).next_stage).finish 1) := by
  simp [Trial.run, hdone, hrun, hst, hbl, Trial.add_results, Trial.startEffect, trs,
    lookupMap]

theorem run_pending_blocking_noop (t : Trial) (stg : Stage) (o : StageOutcome)
    (hdone : t.done = false) (hrun : t.running = false)
    (hst : t.stages[t.stage_index]? = some stg) (hbl : stg.blocking = true)
    (ho : o = .stageReset ∨ o = .ignore) :
    t.run o = .ok (t.startEffect [], 0, none) := by
  rcases ho with h | h <;> subst h <;>
    simp [Trial.run, hdone, hrun, hst, hbl, Trial.add_results, finish_zero,
      Trial.startEffect, trs, lookupMap]

theorem run_pending_nonblocking_abort (t : Trial) (stg : Stage)
    (hdone : t.done = false) (hrun : t.running = false)
    (hst : t.stages[t.stage_index]? = some stg) (hbl : stg.blocking = false) :
    t.run .stageAbort = .ok (({ t with state_checkpoint := t.state }).next_stage, 0, none) := by
  simp [Trial.run, hdone, hrun, hst, hbl]

theorem run_pending_nonblocking_noop (t : Trial) (stg : Stage) (o : StageOutcome)
    (hdone : t.done = false) (hrun : t.running = false)
    (hst : t.stages[t.stage_index]? = some stg) (hbl : stg.blocking = false)
    (ho : o = .stageReset ∨ o = .ignore) :
    t.run o = .ok ({ t with state_checkpoint := t.state }, 0, none) := by
  rcases ho with h | h <;> subst h <;> simp [Trial.run, hdone, hrun, hst, hbl]

theorem run_running_zero (t : Trial) (stg : Stage) (n : StateMap)
    (hdone : t.done = false) (hrun : t.running = true)
    (hst : t.stages[t.stage_index]? = some stg) :
    t.run (.ret 0 n) = .ok (t.pollEffect n, 0, none) := by
  simp [Trial.run, hdone, hrun, hst, Trial.add_results, finish_zero, Trial.pollEffect]

theorem run_running_succ (t : Trial) (stg : Stage) (s : Nat) (n : StateMap)
    (hdone : t.done = false) (hrun : t.running = true)
    (hst : t.stages[t.stage_index]? = some stg) (hs : s ≠ 0) :
    t.run (.ret s n) =
      .ok (({ (t.pollEffect n).next_stage with running := false }).finish 1) := by
  simp [Trial.run, hdone, hrun, hst, hs, Trial.add_results, Trial.pollEffect]

theorem run_running_abort (t : Trial) (stg : Stage)
    (hdone : t.done = false) (hrun : t.running = true)
    (hst : t.stages[t.stage_index]? = some stg) :
    t.run .stageAbort = .ok (t.next_stage, 0, none) := by
  simp [Trial.run, hdone, hrun, hst]

theorem run_running_reset (t : Trial) (stg : Stage)
    (hdone : t.done = false) (hrun : t.running = true)
    (hst : t.stages[t.stage_index]? = some stg) :
    t.run .stageReset = .ok (t.reset_stage, 0, none) := by
  simp [Trial.run, hdone, hrun, hst]

theorem run_running_ignore (t : Trial) (stg : Stage)
    (hdone : t.done = false) (hrun : t.running = true)
    (hst : t.stages[t.stage_index]? = some stg) :
    t.run .ignore = .ok (t, 0, none) := by
  simp [Trial.run, hdone, hrun, hst]

/-! ### Field preservation through `Trial.run` -/

theorem startEffect_initial_state (t : Trial) (n : StateMap) :
    (t.startEffect n).initial_state = t.initial_state := rfl

theorem pollEffect_initial_state (t : Trial) (n : StateMap) :
    (t.pollEffect n).initial_state = t.initial_state := rfl

theorem next_stage_initial_state (t : Trial) :
    t.next_stage.initial_state = t.initial_state := rfl

theorem reset_stage_initial_state (t : Trial) :
    t.reset_stage.initial_state = t.initial_state := rfl

theorem finish_fst_initial_state (t : Trial) (j : Nat) :
    ((t.finish j).1).initial_state = t.initial_state := by
  unfold Trial.finish
  split <;> rfl

/-- No path through `Trial.run` writes `initial_state`. -/
theorem run_ok_initial_state (t : Trial) (o : StageOutcome)
    (out : Trial × Nat × Option (List Nat)) (h : t.run o = .ok out) :
    out.1.initial_state = t.initial_state := by
  cases hdone : t.done with
  | true =>
    rw [run_done t o hdone] at h
    cases h
    rfl
  | false =>
    cases hst : t.stages[t.stage_index]? with
    | none =>
      rw [run_index_error t o hdone hst] at h
      cases h
    | some stg =>
      cases hrun : t.running with
      | false =>
        cases o with
        | ret s n =>
          by_cases hs : s = 0
          · subst hs
            rw [run_pending_zero t stg n hdone hrun hst] at h
            cases h
            rfl
          · cases hbl : stg.blocking with
            | true =>
              rw [run_pending_blocking_succ t stg s n hdone hrun hst hbl hs] at h
              cases h
              simp [finish_fst_initial_state, next_stage_initial_state,
                startEffect_initial_state]
            | false =>
              rw [run_pending_nonblocking_succ t stg s n hdone hrun hst hbl hs] at h
              cases h
              rfl
        | stageAbort =>
          cases hbl : stg.blocking with
          | true =>
            rw [run_pending_blocking_abort t stg hdone hrun hst hbl] at h
            cases h
            simp [finish_fst_initial_state, next_stage_initial_state,
              startEffect_initial_state]
          | false =>
            rw [run_pending_nonblocking_abort t stg hdone hrun hst hbl] at h
            cases h
            rfl
        | stageReset =>
          cases hbl : stg.blocking with
          | true =>
            rw [run_pending_blocking_noop t stg _ hdone hrun hst hbl (Or.inl rfl)] at h
            cases h
            rfl
          | false =>
            rw [run_pending_nonblocking_noop t stg _ hdone hrun hst hbl (Or.inl rfl)] at h
            cases h
            rfl
        | ignore =>
          cases hbl : stg.blocking with
          | true =>
            rw [run_pending_blocking_noop t stg _ hdone hrun hst hbl (Or.inr rfl)] at h
            cases h
            rfl
          | false =>
            rw [run_pending_nonblocking_noop t stg _ hdone hrun hst hbl (Or.inr rfl)] at h
            cases h
            rfl
      | true =>
        cases o with
        | ret s n =>
          by_cases hs : s = 0
          · subst hs
            rw [run_running_zero t stg n hdone hrun hst] at h
            cases h
            rfl
          · rw [run_running_succ t stg s n hdone hrun hst hs] at h
            cases h
            simp [finish_fst_initial_state, next_stage_initial_state,
              pollEffect_initial_state]
        | stageAbort =>
          rw [run_running_abort t stg hdone hrun hst] at h
          cases h
          rfl
        | stageReset =>
          rw [run_running_reset t stg hdone hrun hst] at h
          cases h
          rfl
        | ignore =>
          rw [run_running_ignore t stg hdone hrun hst] at h
          cases h
          rfl

theorem new_trial_fields (t : Trial) (sa : Option (List StateMap)) (kwargs : StateMap)
    (t1 : Trial) (h : t.new_trial sa kwargs = some t1) :
    t1.initial_state = updateMap t.initial_state kwargs ∧
      t1.done = false ∧ t1.stage_index = 0 := by
  simp only [Trial.new_trial] at h
  split at h
  · cases h
  · simp only [Option.some.injEq] at h
    rw [← h]
    exact ⟨rfl, rfl, rfl⟩

/-! ### The public Trial operations (C10) -/

/-- The public calls on a `Trial` object, as invoked between (and during)
scheduler passes.  `new_trial_no_overrides` is a later `new_trial` call
that passes no keyword overrides. -/
inductive TrialOp
  | reset
  | new_trial_no_overrides (stage_args : Option (List StateMap))
  | run (o : StageOutcome)
  | set_done
  | reset_stage
  | setup (stage_args : List StateMap)
  | next_stage
  | set_running
  | unset_running
deriving DecidableEq, Repr

/-- Apply one Trial operation.  For `run`, an `IndexError` escaping the
method body reaches the `handle_exceptions` wrapper, which consumes from
the trial's own error sequence before re-raising; the trial object is
otherwise unchanged, since `self.stages[self.stage_index]` is the first
statement executed. -/
def Trial.apply (t : Trial) : TrialOp → Option Trial
  | .reset => t.reset
  | .new_trial_no_overrides sa => t.new_trial sa []
  | .run o =>
    match t.run o with
    | .ok (t', _, _) => some t'
    | .error _ =>
      some { t with
        error_sequence :=
          (handleUnexpected t.error_sequence (ErrEntry.exc (.other 0))).2 }
  | .set_done => some t.set_done
  | .reset_stage => some t.reset_stage
  | .setup sa => some (t.setup sa)
  | .next_stage => some t.next_stage
  | .set_running => some { t with running := true }
  | .unset_running => some { t with running := false }

def Trial.applySeq (t : Trial) : List TrialOp → Option Trial
  | [] => some t
  | op :: ops =>
    match t.apply op with
    | none => none
    | some t' => t'.applySeq ops

theorem apply_initial_state (t : Trial) (op : TrialOp) (t' : Trial)
    (h : t.apply op = some t') : t'.initial_state = t.initial_state := by
  cases op with
  | reset =>
    simp only [Trial.apply, Trial.reset] at h
    cases hsa : t.stage_args.head? with
    | none => rw [hsa] at h; cases h
    | some a0 =>
      rw [hsa] at h
      cases h
      rfl
  | new_trial_no_overrides sa =>
    simp only [Trial.apply] at h
    have := (new_trial_fields t sa [] t' h).1
    rw [this, updateMap_nil]
  | run o =>
    simp only [Trial.apply] at h
    cases hr : t.run o with
    | error e =>
      rw [hr] at h
      cases h
      rfl
    | ok out =>
      obtain ⟨t1, s1, r1⟩ := out
      rw [hr] at h
      cases h
      exact run_ok_initial_state t o (t', s1, r1) hr
  | set_done => cases h; rfl
  | reset_stage => cases h; rfl
  | setup sa => cases h; rfl
  | next_stage => cases h; rfl
  | set_running => cases h; rfl
  | unset_running => cases h; rfl

theorem applySeq_initial_state (ops : List TrialOp) : ∀ t t' : Trial,
    Trial.applySeq t ops = some t' → t'.initial_state = t.initial_state := by
  induction ops with
  | nil =>
    intro t t' h
    cases h
    rfl
  | cons op ops ih =>
    intro t t' h
    simp only [Trial.applySeq] at h
    cases ha : t.apply op with
    | none => rw [ha] at h; cases h
    | some t1 =>
      rw [ha] at h
      rw [ih t1 t' h, apply_initial_state t op t1 ha]

theorem lookupMap_mapSet_self (m : StateMap) (k : String) (v : Nat) :
    lookupMap (mapSet m k v) k = some v := by
  induction m with
  | nil => simp [mapSet, lookupMap]
  | cons kv rest ih =>
    obtain ⟨k0, v0⟩ := kv
    by_cases h : k0 = k <;> simp [mapSet, lookupMap, h, ih]

theorem lookupMap_mapSet_other (m : StateMap) (k k' : String) (v : Nat)
    (h : ¬ k' = k) : lookupMap (mapSet m k v) k' = lookupMap m k' := by
  induction m with
  | nil =>
    have hk : ¬ k = k' := fun hh => h hh.symm
    simp [mapSet, lookupMap, hk]
  | cons kv rest ih =>
    obtain ⟨k0, v0⟩ := kv
    by_cases h0 : k0 = k
    · have hk : ¬ k = k' := fun hh => h hh.symm
      have hk0 : ¬ k0 = k' := fun hh => h (by rw [← hh]; exact h0)
      simp [mapSet, lookupMap, h0, hk, hk0]
    · by_cases h1 : k0 = k' <;> simp [mapSet, lookupMap, h0, h1, h, ih]

theorem lookupMap_updateMap_not_mem (kwargs : StateMap) : ∀ (m : StateMap) (k : String),
    k ∉ kwargs.map Prod.fst →
    lookupMap (updateMap m kwargs) k = lookupMap m k := by
  induction kwargs with
  | nil => intro m k _; rfl
  | cons kv rest ih =>
    intro m k h
    obtain ⟨k0, v0⟩ := kv
    have h0 : ¬ k = k0 := by
      intro hh
      exact h (by simp [hh])
    have h1 : k ∉ rest.map Prod.fst := by
      intro hh
      exact h (by simp [hh])
    rw [updateMap_cons, ih (mapSet m k0 v0) k h1]
    exact lookupMap_mapSet_other m k0 k v0 h0

theorem lookupMap_updateMap_mem (kwargs : StateMap) : ∀ (m : StateMap) (k : String) (v : Nat),
    (kwargs.map Prod.fst).Nodup → lookupMap kwargs k = some v →
    lookupMap (updateMap m kwargs) k = some v := by
  induction kwargs with
  | nil =>
    intro m k v _ h
    cases h
  | cons kv rest ih =>
    intro m k v hnd hl
    obtain ⟨k0, v0⟩ := kv
    obtain ⟨hh1, hh2⟩ : (∀ x : Nat, (k0, x) ∉ rest) ∧ (rest.map Prod.fst).Nodup := by
      simpa using hnd
    rw [updateMap_cons]
    by_cases hk : k0 = k
    · subst hk
      have hv : v0 = v := by simpa [lookupMap] using hl
      subst hv
      have hnm : k0 ∉ rest.map Prod.fst := by
        intro hmem
        obtain ⟨⟨a, b⟩, hab, heq⟩ := List.mem_map.mp hmem
        exact hh1 b (heq ▸ hab)
      rw [lookupMap_updateMap_not_mem rest (mapSet m k0 v0) k0 hnm]
      exact lookupMap_mapSet_self m k0 v0
    · have hl' : lookupMap rest k = some v := by simpa [lookupMap, hk] using hl
      exact ih (mapSet m k0 v0) k v hh2 hl'

/-- C10: keyword overrides passed to `new_trial` are merged into the
Trial's persistent `initial_state` in place, and no later call — `reset`,
`new_trial` without overrides, `run`, or any other public Trial operation —
changes `initial_state` again; with distinct override keys, each override
binding is still found in `initial_state` afterwards. -/
theorem new_trial_overrides_persist (t : Trial) (sa : Option (List StateMap))
    (kwargs : StateMap) (t1 t2 : Trial) (ops : List TrialOp)
    (hnew : t.new_trial sa kwargs = some t1)
    (hops : Trial.applySeq t1 ops = some t2) :
    t2.initial_state = updateMap t.initial_state kwargs ∧
      ((kwargs.map Prod.fst).Nodup →
        ∀ k v, lookupMap kwargs k = some v →
          lookupMap t2.initial_state k = some v) := by
  have h1 : t1.initial_state = updateMap t.initial_state kwargs :=
    (new_trial_fields t sa kwargs t1 hnew).1
  have h2 : t2.initial_state = t1.initial_state :=
    applySeq_initial_state ops t1 t2 hops
  refine ⟨h2.trans h1, fun hnd k v hl => ?_⟩
  rw [h2, h1]
  exact lookupMap_updateMap_mem kwargs t.initial_state k v hnd hl

/-- Concrete trial for the C10 witness: the result of feeding the override
`ov := 42` into a fresh one-stage Trial through `new_trial`. -/
def c10Stage : Stage :=
  { blocking := true, error_sequence := [], original_error_sequence := [] }

def c10T1 : Trial :=
  { error_sequence := []
    original_error_sequence := []
    stages := [c10Stage]
    stage_args := [[]]
    state := [("ov", 42)]
    state_checkpoint := [("ov", 42)]
    initial_state := [("ov", 42)]
    stage_index := 0
    running := false
    done := false
    results := []
    initial_results := [] }

theorem new_trial_overrides_persist_witness :
    ((Trial.init [c10Stage] [] [] []).new_trial none [("ov", 42)] = some c10T1) ∧
      (Trial.applySeq c10T1 [.reset, .new_trial_no_overrides none, .set_done] =
        some { c10T1 with done := true }) ∧
      (({ c10T1 with done := true }).initial_state =
          updateMap (Trial.init [c10Stage] [] [] []).initial_state [("ov", 42)] ∧
        ((([("ov", 42)] : StateMap).map Prod.fst).Nodup →
          ∀ k v, lookupMap [("ov", 42)] k = some v →
            lookupMap ({ c10T1 with done := true }).initial_state k = some v)) :=
  ⟨by rfl, by rfl,
    new_trial_overrides_persist (Trial.init [c10Stage] [] [] []) none [("ov", 42)]
      c10T1 { c10T1 with done := true } [.reset, .new_trial_no_overrides none, .set_done]
      (by rfl) (by rfl)⟩

/-! ### C1: a Trial with K stages completes after exactly K completion signals

A `StageScript` describes the outcomes one stage's collaborator produces
across an uninterrupted run of that stage — all normal returns, no control
exceptions and no unexpected failures.  For a blocking stage: any number of
`start` calls answered `(0, update)` ("retry"), then the one `start`
answered with a nonzero status (the completion signal).  For a non-blocking
stage: any number of `start` calls answered `(0, update)` (not started
yet), the `start` answered with a nonzero status (stage running — not a
completion signal), any number of `is_done` polls answered `(0, update)`,
then the one `is_done` answered with a nonzero status (the completion
signal).  Every all-normal-return execution of `Trial.run` that completes
each stage exactly once is of this shape. -/

inductive StageScript
  | blocking (preStart : List StateMap) (status : Nat) (upd : StateMap)
  | pollable (preStart : List StateMap) (startStatus : Nat) (startUpd : StateMap)
      (preDone : List StateMap) (doneStatus : Nat) (doneUpd : StateMap)
deriving DecidableEq, Repr

def StageScript.blockingFlag : StageScript → Bool
  | .blocking _ _ _ => true
  | .pollable _ _ _ _ _ _ => false

/-- The stage outcomes of one stage's script, one per `Trial.run` call; the
`+ 1` offsets make every completing status nonzero by construction. -/
def StageScript.calls : StageScript → List StageOutcome
  | .blocking pre s u => pre.map (fun m => .ret 0 m) ++ [.ret (s + 1) u]
  | .pollable pre ss su pd ds du =>
      pre.map (fun m => .ret 0 m) ++ [.ret (ss + 1) su] ++
        pd.map (fun m => .ret 0 m) ++ [.ret (ds + 1) du]

def trsList : List StateMap → List Nat
  | [] => []
  | m :: rest => trs m ++ trsList rest

/-- All `trial_results` values the stage's updates supply, in call order. -/
def StageScript.trialResults : StageScript → List Nat
  | .blocking pre _ u => trsList pre ++ trs u
  | .pollable pre _ su pd _ du => trsList pre ++ trs su ++ trsList pd ++ trs du

def scriptsCalls : List StageScript → List StageOutcome
  | [] => []
  | s :: rest => s.calls ++ scriptsCalls rest

def scriptsTrialResults : List StageScript → List Nat
  | [] => []
  | s :: rest => s.trialResults ++ scriptsTrialResults rest

theorem runSeq_append (a : List StageOutcome) : ∀ (t : Trial) (b : List StageOutcome),
    t.runSeq (a ++ b) =
      match t.runSeq a with
      | .error e => .error e
      | .ok (t', outs) =>
        match t'.runSeq b with
        | .error e => .error e
        | .ok (t'', outs') => .ok (t'', outs ++ outs') := by
  induction a with
  | nil =>
    intro t b
    simp only [List.nil_append, Trial.runSeq]
    cases h : t.runSeq b with
    | error e => rfl
    | ok out =>
      obtain ⟨t'', outs'⟩ := out
      rfl
  | cons o os ih =>
    intro t b
    simp only [List.cons_append, Trial.runSeq]
    cases hr : t.run o with
    | error e => rfl
    | ok out =>
      obtain ⟨t1, s1, r1⟩ := out
      dsimp only
      rw [show os.append b = os ++ b from rfl, ih t1 b]
      cases h1 : t1.runSeq os with
      | error e => rfl
      | ok out1 =>
        obtain ⟨t2, outs⟩ := out1
        dsimp only
        cases h2 : t2.runSeq b with
        | error e => rfl
        | ok out2 =>
          obtain ⟨t3, outs'⟩ := out2
          rfl

/-- Zero-status `start` answers keep the trial pending at the same stage,
only moving state, checkpoint and results. -/
theorem runSeq_pending_zeros (ms : List StateMap) : ∀ (t : Trial) (stg : Stage),
    t.done = false → t.running = false → t.stages[t.stage_index]? = some stg →
    ∃ st cp, t.runSeq (ms.map (fun m => StageOutcome.ret 0 m)) =
      .ok ({ t with state := st, state_checkpoint := cp,
                    results := t.results ++ trsList ms },
        List.replicate ms.length ((0 : Nat), (none : Option (List Nat)))) := by
  induction ms with
  | nil =>
    intro t stg hdone hrun hst
    refine ⟨t.state, t.state_checkpoint, ?_⟩
    simp [Trial.runSeq, trsList]
  | cons m rest ih =>
    intro t stg hdone hrun hst
    have h1 := run_pending_zero t stg m hdone hrun hst
    obtain ⟨st, cp, hrest⟩ := ih (t.startEffect m) stg hdone hrun hst
    refine ⟨st, cp, ?_⟩
    simp only [Trial.startEffect] at hrest
    simp only [List.map_cons, Trial.runSeq, h1, Trial.startEffect]
    rw [hrest]
    simp [List.replicate_succ, List.append_assoc, trsList]

/-- Zero-status `is_done` answers keep the trial running at the same stage. -/
theorem runSeq_running_zeros (ms : List StateMap) : ∀ (t : Trial) (stg : Stage),
    t.done = false → t.running = true → t.stages[t.stage_index]? = some stg →
    ∃ st, t.runSeq (ms.map (fun m => StageOutcome.ret 0 m)) =
      .ok ({ t with state := st, results := t.results ++ trsList ms },
        List.replicate ms.length ((0 : Nat), (none : Option (List Nat)))) := by
  induction ms with
  | nil =>
    intro t stg hdone hrun hst
    refine ⟨t.state, ?_⟩
    simp [Trial.runSeq, trsList]
  | cons m rest ih =>
    intro t stg hdone hrun hst
    have h1 := run_running_zero t stg m hdone hrun hst
    obtain ⟨st, hrest⟩ := ih (t.pollEffect m) stg hdone hrun hst
    refine ⟨st, ?_⟩
    simp only [Trial.pollEffect] at hrest
    simp only [List.map_cons, Trial.runSeq, h1, Trial.pollEffect]
    rw [hrest]
    simp [List.replicate_succ, List.append_assoc, trsList]

theorem runSeq_single (t : Trial) (o : StageOutcome) (t' : Trial) (s : Nat)
    (r : Option (List Nat)) (h : t.run o = .ok (t', s, r)) :
    t.runSeq [o] = .ok (t', [(s, r)]) := by
  simp [Trial.runSeq, h]

theorem replicate_pack {α : Type} (a b : Nat) (x : α) :
    (List.replicate a x ++ [x]) ++ List.replicate b x = List.replicate (a + 1 + b) x := by
  rw [← List.replicate_succ', ← List.replicate_add]

theorem runSeq_append_ok (t t1 t2 : Trial) (a b : List StageOutcome)
    (o1 o2 : List (Nat × Option (List Nat)))
    (ha : t.runSeq a = .ok (t1, o1)) (hb : t1.runSeq b = .ok (t2, o2)) :
    t.runSeq (a ++ b) = .ok (t2, o1 ++ o2) := by
  rw [runSeq_append a t b, ha]
  dsimp only
  rw [hb]

theorem runSeq_pending_zeros_ex (ms : List StateMap) (t : Trial) (stg : Stage)
    (hdone : t.done = false) (hrun : t.running = false)
    (hst : t.stages[t.stage_index]? = some stg) :
    ∃ t', t.runSeq (ms.map (fun m => StageOutcome.ret 0 m)) =
        .ok (t', List.replicate ms.length ((0 : Nat), (none : Option (List Nat)))) ∧
      t'.results = t.results ++ trsList ms ∧ t'.done = false ∧ t'.running = false ∧
      t'.stage_index = t.stage_index ∧ t'.stages = t.stages ∧
      t'.stage_args = t.stage_args := by
  obtain ⟨st, cp, h⟩ := runSeq_pending_zeros ms t stg hdone hrun hst
  exact ⟨_, h, rfl, hdone, hrun, rfl, rfl, rfl⟩

theorem runSeq_running_zeros_ex (ms : List StateMap) (t : Trial) (stg : Stage)
    (hdone : t.done = false) (hrun : t.running = true)
    (hst : t.stages[t.stage_index]? = some stg) :
    ∃ t', t.runSeq (ms.map (fun m => StageOutcome.ret 0 m)) =
        .ok (t', List.replicate ms.length ((0 : Nat), (none : Option (List Nat)))) ∧
      t'.results = t.results ++ trsList ms ∧ t'.done = false ∧ t'.running = true ∧
      t'.stage_index = t.stage_index ∧ t'.stages = t.stages ∧
      t'.stage_args = t.stage_args := by
  obtain ⟨st, h⟩ := runSeq_running_zeros ms t stg hdone hrun hst
  exact ⟨_, h, rfl, hdone, hrun, rfl, rfl, rfl⟩

/-- A blocking stage's completing `start` (nonzero status) finishes the
stage; the call returns `(1, results)` exactly when it was the last one. -/
theorem runSeq_blocking_complete (t : Trial) (stg : Stage) (st : Nat) (u : StateMap)
    (hdone : t.done = false) (hrun : t.running = false)
    (hst : t.stages[t.stage_index]? = some stg) (hblk : stg.blocking = true) :
    ∃ t', t.runSeq [StageOutcome.ret (st + 1) u] =
        .ok (t', [if t.stage_index + 1 = t.stages.length then
            ((1 : Nat), (some (t.results ++ trs u) : Option (List Nat)))
          else ((0 : Nat), (none : Option (List Nat)))]) ∧
      t'.results = t.results ++ trs u ∧ t'.stage_index = t.stage_index + 1 ∧
      t'.running = false ∧ t'.done = decide (t.stage_index + 1 = t.stages.length) ∧
      t'.stages = t.stages ∧ t'.stage_args = t.stage_args := by
  have hone := run_pending_blocking_succ t stg (st + 1) u hdone hrun hst hblk
    (Nat.succ_ne_zero st)
  by_cases hfin : t.stage_index + 1 = t.stages.length
  · have hfin' : ((t.startEffect u).next_stage).stage_index =
        ((t.startEffect u).next_stage).stages.length := by
      simpa [Trial.next_stage, Trial.startEffect] using hfin
    have h2 := hone.trans (by rw [finish_one, if_pos hfin'])
    refine ⟨{ (t.startEffect u).next_stage with done := true },
      ?_, ?_, ?_, ?_, ?_, ?_, ?_⟩
    · rw [if_pos hfin]
      exact runSeq_single _ _ _ _ _ h2
    · simp [Trial.next_stage, Trial.startEffect]
    · simp [Trial.next_stage, Trial.startEffect]
    · simp [Trial.next_stage]
    · simp [hfin]
    · simp [Trial.next_stage, Trial.startEffect]
    · simp [Trial.next_stage, Trial.startEffect]
  · have hfin' : ¬ ((t.startEffect u).next_stage).stage_index =
        ((t.startEffect u).next_stage).stages.length := by
      simpa [Trial.next_stage, Trial.startEffect] using hfin
    have h2 := hone.trans (by rw [finish_one, if_neg hfin'])
    refine ⟨(t.startEffect u).next_stage, ?_, ?_, ?_, ?_, ?_, ?_, ?_⟩
    · rw [if_neg hfin]
      exact runSeq_single _ _ _ _ _ h2
    · simp [Trial.next_stage, Trial.startEffect]
    · simp [Trial.next_stage, Trial.startEffect]
    · simp [Trial.next_stage]
    · simp [Trial.next_stage, Trial.startEffect, hfin, hdone]
    · simp [Trial.next_stage, Trial.startEffect]
    · simp [Trial.next_stage, Trial.startEffect]

/-- A non-blocking stage's successful `start` (nonzero status) marks the
stage running; the call itself reports "not done". -/
theorem runSeq_nonblocking_start (t : Trial) (stg : Stage) (ss : Nat) (su : StateMap)
    (hdone : t.done = false) (hrun : t.running = false)
    (hst : t.stages[t.stage_index]? = some stg) (hblk : stg.blocking = false) :
    ∃ t', t.runSeq [StageOutcome.ret (ss + 1) su] =
        .ok (t', [((0 : Nat), (none : Option (List Nat)))]) ∧
      t'.results = t.results ++ trs su ∧ t'.stage_index = t.stage_index ∧
      t'.running = true ∧ t'.done = false ∧ t'.stages = t.stages ∧
      t'.stage_args = t.stage_args := by
  have hone := run_pending_nonblocking_succ t stg (ss + 1) su hdone hrun hst hblk
    (Nat.succ_ne_zero ss)
  exact ⟨_, runSeq_single _ _ _ _ _ hone, rfl, rfl, rfl, hdone, rfl, rfl⟩

/-- A running stage's completing `is_done` (nonzero status) finishes the
stage; the call returns `(1, results)` exactly when it was the last one. -/
theorem runSeq_running_complete (t : Trial) (stg : Stage) (ds : Nat) (du : StateMap)
    (hdone : t.done = false) (hrun : t.running = true)
    (hst : t.stages[t.stage_index]? = some stg) :
    ∃ t', t.runSeq [StageOutcome.ret (ds + 1) du] =
        .ok (t', [if t.stage_index + 1 = t.stages.length then
            ((1 : Nat), (some (t.results ++ trs du) : Option (List Nat)))
          else ((0 : Nat), (none : Option (List Nat)))]) ∧
      t'.results = t.results ++ trs du ∧ t'.stage_index = t.stage_index + 1 ∧
      t'.running = false ∧ t'.done = decide (t.stage_index + 1 = t.stages.length) ∧
      t'.stages = t.stages ∧ t'.stage_args = t.stage_args := by
  have hone := run_running_succ t stg (ds + 1) du hdone hrun hst (Nat.succ_ne_zero ds)
  by_cases hfin : t.stage_index + 1 = t.stages.length
  · have hfin' : ({ (t.pollEffect du).next_stage with running := false }).stage_index =
        ({ (t.pollEffect du).next_stage with running := false }).stages.length := by
      simpa [Trial.next_stage, Trial.pollEffect] using hfin
    have h2 := hone.trans (by rw [finish_one, if_pos hfin'])
    refine ⟨{ (t.pollEffect du).next_stage with running := false, done := true },
      ?_, ?_, ?_, ?_, ?_, ?_, ?_⟩
    · rw [if_pos hfin]
      exact runSeq_single _ _ _ _ _ h2
    · simp [Trial.next_stage, Trial.pollEffect]
    · simp [Trial.next_stage, Trial.pollEffect]
    · rfl
    · simp [hfin]
    · simp [Trial.next_stage, Trial.pollEffect]
    · simp [Trial.next_stage, Trial.pollEffect]
  · have hfin' : ¬ ({ (t.pollEffect du).next_stage with running := false }).stage_index =
        ({ (t.pollEffect du).next_stage with running := false }).stages.length := by
      simpa [Trial.next_stage, Trial.pollEffect] using hfin
    have h2 := hone.trans (by rw [finish_one, if_neg hfin'])
    refine ⟨{ (t.pollEffect du).next_stage with running := false },
      ?_, ?_, ?_, ?_, ?_, ?_, ?_⟩
    · rw [if_neg hfin]
      exact runSeq_single _ _ _ _ _ h2
    · simp [Trial.next_stage, Trial.pollEffect]
    · simp [Trial.next_stage, Trial.pollEffect]
    · rfl
    · simp [Trial.next_stage, Trial.pollEffect, hfin, hdone]
    · simp [Trial.next_stage, Trial.pollEffect]
    · simp [Trial.next_stage, Trial.pollEffect]

/-- Driving one stage through its whole script advances the trial exactly
one stage boundary: every call but the last returns `(0, None)`, and the
completing call returns `(1, accumulated results)` exactly when the stage
was the trial's last. -/
theorem runSeq_stage (s : StageScript) (t : Trial) (stg : Stage)
    (hdone : t.done = false) (hrun : t.running = false)
    (hst : t.stages[t.stage_index]? = some stg)
    (hbl : stg.blocking = s.blockingFlag) :
    ∃ t', t.runSeq s.calls =
        .ok (t',
          List.replicate (s.calls.length - 1) ((0 : Nat), (none : Option (List Nat))) ++
            [if t.stage_index + 1 = t.stages.length then
              ((1 : Nat), (some (t.results ++ s.trialResults) : Option (List Nat)))
            else ((0 : Nat), (none : Option (List Nat)))]) ∧
      t'.results = t.results ++ s.trialResults ∧
      t'.stage_index = t.stage_index + 1 ∧
      t'.running = false ∧
      t'.done = decide (t.stage_index + 1 = t.stages.length) ∧
      t'.stages = t.stages ∧
      t'.stage_args = t.stage_args := by
  cases s with
  | blocking pre st u =>
    have hblk : stg.blocking = true := by
      simpa [StageScript.blockingFlag] using hbl
    obtain ⟨t1, h1, hres1, hdone1, hrun1, hidx1, hstg1, hargs1⟩ :=
      runSeq_pending_zeros_ex pre t stg hdone hrun hst
    have hst1 : t1.stages[t1.stage_index]? = some stg := by
      rw [hstg1, hidx1]
      exact hst
    obtain ⟨t2, h2, hres2, hidx2, hrun2, hdone2, hstg2, hargs2⟩ :=
      runSeq_blocking_complete t1 stg st u hdone1 hrun1 hst1 hblk
    have hcomp := runSeq_append_ok t t1 t2 _ _ _ _ h1 h2
    rw [hidx1, hstg1, hres1] at hcomp
    refine ⟨t2, ?_, ?_, ?_, hrun2, ?_, hstg2.trans hstg1, hargs2.trans hargs1⟩
    · rw [show (StageScript.blocking pre st u).calls =
          pre.map (fun m => StageOutcome.ret 0 m) ++ [.ret (st + 1) u] from rfl,
        hcomp]
      simp [StageScript.trialResults]
    · rw [hres2, hres1, List.append_assoc]
      rfl
    · rw [hidx2, hidx1]
    · rw [hdone2, hidx1, hstg1]
  | pollable pre ss su pd ds du =>
    have hblk : stg.blocking = false := by
      simpa [StageScript.blockingFlag] using hbl
    obtain ⟨t1, h1, hres1, hdone1, hrun1, hidx1, hstg1, hargs1⟩ :=
      runSeq_pending_zeros_ex pre t stg hdone hrun hst
    have hst1 : t1.stages[t1.stage_index]? = some stg := by
      rw [hstg1, hidx1]
      exact hst
    obtain ⟨t2, h2, hres2, hidx2, hrun2, hdone2, hstg2, hargs2⟩ :=
      runSeq_nonblocking_start t1 stg ss su hdone1 hrun1 hst1 hblk
    have hst2 : t2.stages[t2.stage_index]? = some stg := by
      rw [hstg2, hstg1, hidx2, hidx1]
      exact hst
    obtain ⟨t3, h3, hres3, hdone3, hrun3, hidx3, hstg3, hargs3⟩ :=
      runSeq_running_zeros_ex pd t2 stg hdone2 hrun2 hst2
    have hst3 : t3.stages[t3.stage_index]? = some stg := by
      rw [hstg3, hstg2, hstg1, hidx3, hidx2, hidx1]
      exact hst
    obtain ⟨t4, h4, hres4, hidx4, hrun4, hdone4, hstg4, hargs4⟩ :=
      runSeq_running_complete t3 stg ds du hdone3 hrun3 hst3
    have hc1 := runSeq_append_ok t t1 t2 _ _ _ _ h1 h2
    have hc2 := runSeq_append_ok t t2 t3 _ _ _ _ hc1 h3
    have hc3 := runSeq_append_ok t t3 t4 _ _ _ _ hc2 h4
    rw [hidx3, hidx2, hidx1, hstg3, hstg2, hstg1, hres3, hres2, hres1] at hc3
    refine ⟨t4, ?_, ?_, ?_, hrun4, ?_, ?_, ?_⟩
    · rw [show (StageScript.pollable pre ss su pd ds du).calls =
          ((pre.map (fun m => StageOutcome.ret 0 m) ++ [.ret (ss + 1) su]) ++
            pd.map (fun m => StageOutcome.ret 0 m)) ++ [.ret (ds + 1) du] from rfl,
        hc3, replicate_pack]
      simp [StageScript.trialResults, List.append_assoc]
      omega
    · rw [hres4, hres3, hres2, hres1]
      simp [StageScript.trialResults, List.append_assoc]
    · rw [hidx4, hidx3, hidx2, hidx1]
    · rw [hdone4, hidx3, hidx2, hidx1, hstg3, hstg2, hstg1]
    · rw [hstg4, hstg3, hstg2, hstg1]
    · rw [hargs4, hargs3, hargs2, hargs1]

theorem scripts_calls_length_pos (s : StageScript) : 0 < s.calls.length := by
  cases s <;> simp [StageScript.calls]

theorem scriptsCalls_length_pos (scripts : List StageScript) (h : scripts ≠ []) :
    0 < (scriptsCalls scripts).length := by
  cases scripts with
  | nil => exact absurd rfl h
  | cons s rest =>
    have := scripts_calls_length_pos s
    simp only [scriptsCalls, List.length_append]
    omega

theorem drop_map_cons {α β : Type} (l : List α) (i : Nat) (f : α → β) (x : β)
    (xs : List β) (h : (l.drop i).map f = x :: xs) :
    (∃ a, l[i]? = some a ∧ f a = x) ∧ (l.drop (i + 1)).map f = xs := by
  cases hd : l.drop i with
  | nil => rw [hd] at h; cases h
  | cons y ys =>
    rw [hd] at h
    simp only [List.map_cons, List.cons.injEq] at h
    obtain ⟨hy, hys⟩ := h
    have h0 : l[i]? = some y := by
      rw [← List.head?_drop, hd]
      rfl
    have h1 : l.drop (i + 1) = ys := by
      rw [← List.tail_drop, hd]
      rfl
    exact ⟨⟨y, h0, hy⟩, by rw [h1]; exact hys⟩

theorem replicate_chain {α : Type} (c1 c2 : Nat) (x fin : α)
    (h1 : 0 < c1) (h2 : 0 < c2) :
    (List.replicate (c1 - 1) x ++ [x]) ++ (List.replicate (c2 - 1) x ++ [fin]) =
      List.replicate (c1 + c2 - 1) x ++ [fin] := by
  obtain ⟨a, rfl⟩ : ∃ a, c1 = a + 1 := ⟨c1 - 1, by omega⟩
  obtain ⟨b, rfl⟩ : ∃ b, c2 = b + 1 := ⟨c2 - 1, by omega⟩
  have hab : a + 1 + (b + 1) - 1 = a + 1 + b := by omega
  have ha : a + 1 - 1 = a := by omega
  have hb : b + 1 - 1 = b := by omega
  rw [hab, ha, hb, ← List.replicate_succ', ← List.append_assoc, ← List.replicate_add]

/-- Main induction for C1: from a pending position with the remaining
stages' blocking flags matching the remaining scripts, the whole script
list drives the trial to Done, every call but the last answering
`(0, None)` and the last `(1, accumulated results)`. -/
theorem runSeq_scripts (scripts : List StageScript) : ∀ t : Trial,
    scripts ≠ [] →
    t.done = false → t.running = false →
    (t.stages.drop t.stage_index).map Stage.blocking =
      scripts.map StageScript.blockingFlag →
    ∃ t', t.runSeq (scriptsCalls scripts) =
        .ok (t',
          List.replicate ((scriptsCalls scripts).length - 1)
              ((0 : Nat), (none : Option (List Nat))) ++
            [((1 : Nat), (some (t.results ++ scriptsTrialResults scripts) :
                Option (List Nat)))]) ∧
      t'.done = true ∧ t'.stage_index = t.stages.length := by
  induction scripts with
  | nil =>
    intro t h
    exact absurd rfl h
  | cons s rest ih =>
    intro t _ hdone hrun hmatch
    rw [List.map_cons] at hmatch
    obtain ⟨⟨stg, hst, hflag⟩, hmatch'⟩ :=
      drop_map_cons t.stages t.stage_index Stage.blocking _ _ hmatch
    have hlen : t.stages.length - t.stage_index = rest.length + 1 := by
      have hc := congrArg List.length hmatch
      simpa using hc
    obtain ⟨t1, h1, hres1, hidx1, hrun1, hdone1, hstg1, hargs1⟩ :=
      runSeq_stage s t stg hdone hrun hst hflag
    cases rest with
    | nil =>
      have hfin : t.stage_index + 1 = t.stages.length := by
        simp only [List.length_nil] at hlen
        omega
      rw [if_pos hfin] at h1
      refine ⟨t1, ?_, ?_, ?_⟩
      · simpa [scriptsCalls, scriptsTrialResults] using h1
      · rw [hdone1]
        simp [hfin]
      · rw [hidx1]
        exact hfin
    | cons r rs =>
      have hlen2 : t.stages.length - (t.stage_index + 1) = rs.length + 1 := by
        have hc := congrArg List.length hmatch'
        simpa using hc
      have hfin : ¬ (t.stage_index + 1 = t.stages.length) := by omega
      rw [if_neg hfin] at h1
      have hdone1' : t1.done = false := by
        rw [hdone1]
        simp [hfin]
      have hmatch1 : (t1.stages.drop t1.stage_index).map Stage.blocking =
          (r :: rs).map StageScript.blockingFlag := by
        rw [hstg1, hidx1]
        exact hmatch'
      obtain ⟨t2, h2, hdone2, hidx2⟩ := ih t1 (by simp) hdone1' hrun1 hmatch1
      have hcomp := runSeq_append_ok t t1 t2 _ _ _ _ h1 h2
      rw [hres1] at hcomp
      refine ⟨t2, ?_, hdone2, by rw [hidx2, hstg1]⟩
      rw [show scriptsCalls (s :: r :: rs) = s.calls ++ scriptsCalls (r :: rs) from rfl,
        hcomp,
        replicate_chain _ _ _ _ (scripts_calls_length_pos s)
          (scriptsCalls_length_pos (r :: rs) (by simp))]
      simp [scriptsTrialResults, List.append_assoc, List.length_append]

/-- C1: a Trial with `K = scripts.length` stages whose stage collaborators
only ever return normally (no Abort/Reset/Ignore, no unexpected failure),
run from a fresh position.  The compiled call list `scriptsCalls scripts`
carries exactly one completion signal per stage — the nonzero status of a
blocking stage's `start` or of a non-blocking stage's `is_done` — and the
K-th of them is its last call.  Every `run` before it returns `(0, None)`;
the `run` carrying the K-th completion signal returns status `1` together
with the results, the trial then reports `is_done`, and the results
accumulator holds exactly the `trial_results` values supplied by the K
stages' updates, in stage order. -/
theorem trial_completes_after_k_signals (t : Trial) (scripts : List StageScript)
    (hne : scripts ≠ [])
    (hdone : t.done = false) (hrun : t.running = false) (hidx : t.stage_index = 0)
    (hmatch : t.stages.map Stage.blocking = scripts.map StageScript.blockingFlag) :
    ∃ t', t.runSeq (scriptsCalls scripts) =
        .ok (t',
          List.replicate ((scriptsCalls scripts).length - 1)
              ((0 : Nat), (none : Option (List Nat))) ++
            [((1 : Nat), (some (t.results ++ scriptsTrialResults scripts) :
                Option (List Nat)))]) ∧
      t'.done = true ∧ t'.stage_index = t.stages.length := by
  apply runSeq_scripts scripts t hne hdone hrun
  rw [hidx]
  simpa using hmatch

/-- Concrete two-stage trial and scripts for the C1 witness. -/
def c1BlockStage : Stage :=
  { blocking := true, error_sequence := [], original_error_sequence := [] }

def c1PollStage : Stage :=
  { blocking := false, error_sequence := [], original_error_sequence := [] }

def c1Trial : Trial :=
  { error_sequence := []
    original_error_sequence := []
    stages := [c1BlockStage, c1PollStage]
    stage_args := [[], []]
    state := []
    state_checkpoint := []
    initial_state := []
    stage_index := 0
    running := false
    done := false
    results := []
    initial_results := [] }

def c1Scripts : List StageScript :=
  [.blocking [] 0 [("trial_results", 5)],
   .pollable [] 0 [] [[("trial_results", 6)]] 0 [("trial_results", 7)]]

theorem trial_completes_after_k_signals_witness :
    (c1Scripts ≠ []) ∧
      ∃ t', c1Trial.runSeq (scriptsCalls c1Scripts) =
          .ok (t',
            List.replicate ((scriptsCalls c1Scripts).length - 1)
                ((0 : Nat), (none : Option (List Nat))) ++
              [((1 : Nat), (some (c1Trial.results ++ scriptsTrialResults c1Scripts) :
                  Option (List Nat)))]) ∧
        t'.done = true ∧ t'.stage_index = c1Trial.stages.length :=
  ⟨by decide,
    trial_completes_after_k_signals c1Trial c1Scripts (by decide) rfl rfl rfl (by decide)⟩

/-! ## The Experiment fill phase (`experiment.py` 339-512)

The fill loop (lines 453-512) is embedded one iteration per `FillEvent`.
A `FillEvent` is what the loop body observes of `trial.run()`: either the
call returns normally (driven, as in the Trial model, by the single stage
outcome `o` the current stage produces), or it raises one of the
Trial-tier exceptions the loop catches — `TrialReset`, `TrialAbort`,
`Ignore` — whether raised directly by a stage or produced by the trial's
escalation sequence.  A queue entry (`trial_arg_configs` element) is the
keyword mapping splatted into `new_trial`; any exception escaping the
handlers is a model-level error. -/

structure Experiment where
  trial_instances : List Trial
  trial_arg_configs : List StateMap
  base_trial_config : StateMap
  per_instance_config : List StateMap
  trial_index : Nat
deriving DecidableEq, Repr

inductive FillEvent
  | run (o : StageOutcome)
  | raiseReset
  | raiseAbort
  | raiseIgnore
deriving DecidableEq, Repr

inductive FillErr
  | slotIndex
  | runEscape
  | resetFailure
  | instanceIndex
  | duplicateKeyword
  | newTrialFailure
deriving DecidableEq, Repr

/-- No key of `a` occurs in `b` (Python raises `TypeError` when the same
keyword reaches `new_trial(**a, **b)` twice). -/
def disjointKeys (a b : StateMap) : Bool :=
  a.all fun kv => !(b.any fun kv' => kv'.1 = kv.1)

/-- The `try`/`except` block around `trial.run()` (lines 463-492): the
returned `(trial-after, status, results)`.  `TrialReset`: status 0, ship
the trial's current results, reset the slot.  `TrialAbort`: status 1, ship
the current results, slot untouched.  `Ignore`: `(0, 0)` — nothing
shipped. -/
def fillHandlers (trial : Trial) (ev : FillEvent) :
    Except FillErr (Trial × Nat × Option (List Nat)) :=
  match ev with
  | .run o =>
    match trial.run o with
    | .ok (t', s, r) => .ok (t', s, r)
    | .error _ => .error .runEscape
  | .raiseReset =>
    match trial.reset with
    | none => .error .resetFailure
    | some t' => .ok (t', 0, some trial.results)
  | .raiseAbort => .ok (trial, 1, some trial.results)
  | .raiseIgnore => .ok (trial, 0, none)

/-- The `if status:` block (lines 500-506): when the trial reported
completion and the queue is non-empty, pop the *last* queue entry
(`trial_arg_configs.pop()`) and reinitialize the slot with
`new_trial(**base_config, **instance_config, **entry)`.  Returns the
updated experiment and the entries assigned during this pass. -/
def fillAssign (e : Experiment) (t1 : Trial) (status : Nat) :
    Except FillErr (Experiment × List StateMap) :=
  if status ≠ 0 then
    match e.per_instance_config[e.trial_index]? with
    | none => .error .instanceIndex
    | some inst =>
      match e.trial_arg_configs.getLast? with
      | none =>
        .ok ({ e with trial_instances := e.trial_instances.set e.trial_index t1 }, [])
      | some entry =>
        if disjointKeys e.base_trial_config inst &&
            disjointKeys e.base_trial_config entry && disjointKeys inst entry then
          match t1.new_trial none
              (updateMap (updateMap e.base_trial_config inst) entry) with
          | none => .error .newTrialFailure
          | some t2 =>
            .ok ({ e with
              trial_instances := e.trial_instances.set e.trial_index t2,
              trial_arg_configs := e.trial_arg_configs.dropLast }, [entry])
        else .error .duplicateKeyword
  else
    .ok ({ e with trial_instances := e.trial_instances.set e.trial_index t1 }, [])

/-- One iteration of the fill loop body (lines 459-512), given that the
loop guard `len(trial_arg_configs) > 0` held.  Returns the new experiment,
the results shipped during this pass, and the argument sets assigned to
`new_trial` during this pass. -/
def Experiment.fillStep (e : Experiment) (ev : FillEvent) :
    Except FillErr (Experiment × List (List Nat) × List StateMap) :=
  match e.trial_instances[e.trial_index]? with
  | none => .error .slotIndex
  | some trial =>
    match fillHandlers trial ev with
    | .error err => .error err
    | .ok (t1, status, results) =>
      match fillAssign e t1 status with
      | .error err => .error err
      | .ok (e', assigned) =>
        .ok ({ e' with
            trial_index := (e'.trial_index + 1) % e'.trial_instances.length },
          (match results with | some r => [r] | none => []), assigned)

/-- The fill loop: iterate while the queue is non-empty, one event per
iteration; stops (like the `while`) once the queue empties, or when the
supplied event list runs out. -/
def Experiment.fillRun (e : Experiment) :
    List FillEvent → Except FillErr (Experiment × List (List Nat) × List StateMap)
  | [] => .ok (e, [], [])
  | ev :: evs =>
    if e.trial_arg_configs.isEmpty then .ok (e, [], [])
    else
      match e.fillStep ev with
      | .error err => .error err
      | .ok (e', sh, asg) =>
        match e'.fillRun evs with
        | .error err => .error err
        | .ok (e'', shs, asgs) => .ok (e'', sh ++ shs, asg ++ asgs)

/-- What one assignment block does to the queue: either nothing, or it pops
exactly the last entry and hands it to `new_trial`. -/
theorem fillAssign_queue (e : Experiment) (t1 : Trial) (status : Nat)
    (e' : Experiment) (asg : List StateMap)
    (h : fillAssign e t1 status = .ok (e', asg)) :
    (asg = [] ∧ e'.trial_arg_configs = e.trial_arg_configs) ∨
      (∃ entry, e.trial_arg_configs.getLast? = some entry ∧ asg = [entry] ∧
        e'.trial_arg_configs = e.trial_arg_configs.dropLast) := by
  unfold fillAssign at h
  by_cases hs : status ≠ 0
  · rw [if_pos hs] at h
    cases hinst : e.per_instance_config[e.trial_index]? with
    | none => rw [hinst] at h; cases h
    | some inst =>
      rw [hinst] at h
      cases hlast : e.trial_arg_configs.getLast? with
      | none =>
        rw [hlast] at h
        cases h
        exact Or.inl ⟨rfl, rfl⟩
      | some entry =>
        rw [hlast] at h
        dsimp only at h
        split at h
        · cases hnew : t1.new_trial none
              (updateMap (updateMap e.base_trial_config inst) entry) with
          | none => rw [hnew] at h; cases h
          | some t2 =>
            rw [hnew] at h
            cases h
            exact Or.inr ⟨entry, rfl, rfl, rfl⟩
        · cases h
  · rw [if_neg hs] at h
    cases h
    exact Or.inl ⟨rfl, rfl⟩

/-- What one whole fill pass does to the queue. -/
theorem fillStep_queue (e : Experiment) (ev : FillEvent) (e' : Experiment)
    (sh : List (List Nat)) (asg : List StateMap)
    (h : e.fillStep ev = .ok (e', sh, asg)) :
    (asg = [] ∧ e'.trial_arg_configs = e.trial_arg_configs) ∨
      (∃ entry, e.trial_arg_configs.getLast? = some entry ∧ asg = [entry] ∧
        e'.trial_arg_configs = e.trial_arg_configs.dropLast) := by
  unfold Experiment.fillStep at h
  cases hslot : e.trial_instances[e.trial_index]? with
  | none => rw [hslot] at h; cases h
  | some trial =>
    rw [hslot] at h
    dsimp only at h
    cases hh : fillHandlers trial ev with
    | error err => rw [hh] at h; cases h
    | ok out =>
      obtain ⟨t1, status, results⟩ := out
      rw [hh] at h
      dsimp only at h
      cases ha : fillAssign e t1 status with
      | error err => rw [ha] at h; cases h
      | ok out2 =>
        obtain ⟨e1, assigned⟩ := out2
        rw [ha] at h
        dsimp only at h
        cases h
        exact fillAssign_queue e t1 status e1 _ ha

theorem reverse_getLast_cons {α : Type} (l : List α) (x : α)
    (h : l.getLast? = some x) :
    l.reverse = x :: l.dropLast.reverse := by
  induction l with
  | nil => cases h
  | cons a as ih =>
    cases has : as with
    | nil =>
      subst has
      simp only [List.getLast?_singleton, Option.some.injEq] at h
      simp [h]
    | cons b bs =>
      subst has
      rw [List.getLast?_cons_cons] at h
      have := ih h
      rw [List.reverse_cons, this, List.dropLast_cons₂, List.reverse_cons]
      rfl

/-- C8 (amended): whenever the fill loop runs to queue exhaustion, the
argument sets passed to `new_trial` are exactly the queue entries in
*reverse* enqueue order — `trial_arg_configs.pop()` takes the most recently
enqueued entry first — and each entry is assigned exactly once. -/
theorem fill_phase_consumes_reverse_order (evs : List FillEvent) :
    ∀ (e : Experiment) (res : Experiment × List (List Nat) × List StateMap),
    e.fillRun evs = .ok res →
    res.1.trial_arg_configs = [] →
    res.2.2 = e.trial_arg_configs.reverse := by
  induction evs with
  | nil =>
    intro e res h hq
    cases h
    rw [hq]
    rfl
  | cons ev evs ih =>
    intro e res h hq
    unfold Experiment.fillRun at h
    by_cases hemp : e.trial_arg_configs.isEmpty
    · rw [if_pos hemp] at h
      cases h
      rw [hq]
      rfl
    · rw [if_neg hemp] at h
      cases hs : e.fillStep ev with
      | error err => rw [hs] at h; cases h
      | ok out =>
        obtain ⟨e1, sh, asg⟩ := out
        rw [hs] at h
        dsimp only at h
        cases hr : e1.fillRun evs with
        | error err => rw [hr] at h; cases h
        | ok out2 =>
          obtain ⟨e2, shs, asgs⟩ := out2
          rw [hr] at h
          cases h
          have hasgs := ih e1 (e2, shs, asgs) hr hq
          dsimp only at hasgs ⊢
          rcases fillStep_queue e ev e1 sh asg hs with ⟨ha, hqeq⟩ |
            ⟨entry, hlast, ha, hqeq⟩
          · rw [ha, List.nil_append, hasgs, hqeq]
          · rw [ha, hasgs, hqeq, reverse_getLast_cons e.trial_arg_configs entry hlast]
            rfl

def c8Stage : Stage :=
  { blocking := true, error_sequence := [], original_error_sequence := [] }

/-- One fresh blocking-stage slot, two enqueued argument sets. -/
def c8Exp : Experiment :=
  { trial_instances := [Trial.init [c8Stage] [] [] []]
    trial_arg_configs := [[("k", 1)], [("k", 2)]]
    base_trial_config := []
    per_instance_config := [[]]
    trial_index := 0 }

/-- The slot state after the two fill passes that drain `c8Exp`'s queue. -/
def c8TrialFinal : Trial :=
  { error_sequence := []
    original_error_sequence := []
    stages := [c8Stage]
    stage_args := [[]]
    state := [("k", 1)]
    state_checkpoint := [("k", 1)]
    initial_state := [("k", 1)]
    stage_index := 0
    running := false
    done := false
    results := []
    initial_results := [] }

/-- The state after the two fill passes that drain `c8Exp`'s queue. -/
def c8Res : Experiment × List (List Nat) × List StateMap :=
  ({ trial_instances := [c8TrialFinal]
     trial_arg_configs := []
     base_trial_config := []
     per_instance_config := [[]]
     trial_index := 0 },
   [[]], [[("k", 2)], [("k", 1)]])

/-- C8 counterexample: with the queue `[{k:1}, {k:2}]` enqueued in that
order, the first argument set handed to `new_trial` is `{k:2}` — the *last*
enqueued entry, because `trial_arg_configs.pop()` pops from the tail — not
the first enqueued entry `{k:1}` as the claim states. -/
theorem fill_phase_queue_order_counterexample :
    c8Exp.trial_arg_configs = [[("k", 1)], [("k", 2)]] ∧
      c8Exp.fillRun [.run (.ret 0 []), .run (.ret 1 [])] = .ok c8Res ∧
      c8Res.1.trial_arg_configs = [] ∧
      c8Res.2.2.head? = some [("k", 2)] ∧
      some ([("k", 2)] : StateMap) ≠ some [("k", 1)] := by
  exact ⟨rfl, by rfl, rfl, rfl, by decide⟩

theorem fill_phase_consumes_reverse_order_witness :
    c8Exp.fillRun [.run (.ret 0 []), .run (.ret 1 [])] = .ok c8Res ∧
      c8Res.1.trial_arg_configs = [] ∧
      c8Res.2.2 = c8Exp.trial_arg_configs.reverse :=
  ⟨by rfl, rfl,
    fill_phase_consumes_reverse_order [.run (.ret 0 []), .run (.ret 1 [])] c8Exp c8Res
      (by rfl) rfl⟩

/-- A `new_trial` call with default `stage_args` on a trial that owns at
least one stage always succeeds and leaves the trial not-done at stage 0. -/
theorem new_trial_default_some (t : Trial) (kw : StateMap) (h : t.stages ≠ []) :
    ∃ t', t.new_trial none kw = some t' ∧ t'.done = false ∧ t'.stage_index = 0 ∧
      t'.running = false := by
  cases hsa : (List.replicate t.stages.length ([] : StateMap)).head? with
  | none =>
    exfalso
    cases hs : t.stages with
    | nil => exact h hs
    | cons a b =>
      rw [hs] at hsa
      simp [List.replicate_succ] at hsa
  | some a0 =>
    have heq : t.new_trial none kw = some
        { t with
          error_sequence := t.original_error_sequence
          initial_state := updateMap t.initial_state kw
          state := updateMap (updateMap t.initial_state kw) a0
          state_checkpoint := updateMap t.initial_state kw
          stage_args := List.replicate t.stages.length []
          done := false
          stage_index := 0
          results := t.initial_results
          running := false
          stages := t.stages.map fun s =>
            { s with error_sequence := s.original_error_sequence } } := by
      simp only [Trial.new_trial, hsa]
    exact ⟨_, heq, rfl, rfl, rfl⟩

/-- C9 (amended): a fill-phase pass in which the slot's `run` raises
`TrialAbort` does not terminate the Experiment; the slot's accumulated
partial results are shipped to the result sink, and — the fill-loop guard
keeping the queue non-empty — instead of being force-marked Done, the slot
is immediately reinitialized with the next pending argument set via
`new_trial` (not done, back at stage 0).  `set_done`-based force-marking
exists only in the drain loop (lines 533-536). -/
theorem fill_phase_trialabort_reassigns_slot (e : Experiment) (t : Trial)
    (inst : StateMap) (entry : StateMap)
    (hslot : e.trial_instances[e.trial_index]? = some t)
    (hinst : e.per_instance_config[e.trial_index]? = some inst)
    (hstages : t.stages ≠ [])
    (hq : e.trial_arg_configs.getLast? = some entry)
    (hd1 : disjointKeys e.base_trial_config inst = true)
    (hd2 : disjointKeys e.base_trial_config entry = true)
    (hd3 : disjointKeys inst entry = true) :
    ∃ t', e.fillStep .raiseAbort =
        .ok ({ e with
            trial_instances := e.trial_instances.set e.trial_index t',
            trial_arg_configs := e.trial_arg_configs.dropLast,
            trial_index := (e.trial_index + 1) % e.trial_instances.length },
          [t.results], [entry]) ∧
      t'.done = false ∧ t'.stage_index = 0 ∧ t'.running = false := by
  obtain ⟨t', hnew, hdone', hidx', hrun'⟩ :=
    new_trial_default_some t (updateMap (updateMap e.base_trial_config inst) entry)
      hstages
  refine ⟨t', ?_, hdone', hidx', hrun'⟩
  unfold Experiment.fillStep
  rw [hslot]
  dsimp only
  rw [show fillHandlers t .raiseAbort = .ok (t, 1, some t.results) from rfl]
  dsimp only
  rw [show fillAssign e t 1 = (match e.per_instance_config[e.trial_index]? with
    | none => .error .instanceIndex
    | some inst =>
      match e.trial_arg_configs.getLast? with
      | none =>
        .ok ({ e with trial_instances := e.trial_instances.set e.trial_index t }, [])
      | some entry =>
        if disjointKeys e.base_trial_config inst &&
            disjointKeys e.base_trial_config entry && disjointKeys inst entry then
          match t.new_trial none
              (updateMap (updateMap e.base_trial_config inst) entry) with
          | none => .error .newTrialFailure
          | some t2 =>
            .ok ({ e with
              trial_instances := e.trial_instances.set e.trial_index t2,
              trial_arg_configs := e.trial_arg_configs.dropLast }, [entry])
        else .error .duplicateKeyword) from by rw [fillAssign, if_pos (by omega)]]
  rw [hinst, hq]
  dsimp only
  rw [if_pos (by rw [hd1, hd2, hd3]; rfl), hnew]
  dsimp only
  simp [List.length_set]

/-- A slot mid-run with partial results `[5]` accumulated. -/
def c9Trial : Trial :=
  { error_sequence := []
    original_error_sequence := []
    stages := [c8Stage]
    stage_args := [[]]
    state := []
    state_checkpoint := []
    initial_state := []
    stage_index := 0
    running := false
    done := false
    results := [5]
    initial_results := [] }

def c9Exp : Experiment :=
  { trial_instances := [c9Trial]
    trial_arg_configs := [[("n", 3)]]
    base_trial_config := []
    per_instance_config := [[]]
    trial_index := 0 }

/-- The slot state after the `TrialAbort` fill pass reassigns `c9Exp`'s
slot. -/
def c9TrialFinal : Trial :=
  { error_sequence := []
    original_error_sequence := []
    stages := [c8Stage]
    stage_args := [[]]
    state := [("n", 3)]
    state_checkpoint := [("n", 3)]
    initial_state := [("n", 3)]
    stage_index := 0
    running := false
    done := false
    results := []
    initial_results := [] }

def c9Res : Experiment × List (List Nat) × List StateMap :=
  ({ trial_instances := [c9TrialFinal]
     trial_arg_configs := []
     base_trial_config := []
     per_instance_config := [[]]
     trial_index := 0 },
   [[5]], [[("n", 3)]])

/-- C9 counterexample: a fill pass in which the slot raises `TrialAbort`.
The Experiment survives and ships the partial results `[5]`, but the slot
is *not* force-marked Done: its `done` flag is `false` afterwards, because
the fill-phase `TrialAbort` handler (lines 480-488) never calls
`set_done` — the slot is reassigned the next argument set instead. -/
theorem fill_phase_trialabort_counterexample :
    c9Exp.fillRun [.raiseAbort] = .ok c9Res ∧
      c9Res.2.1 = [[5]] ∧
      c9Res.1.trial_instances.map Trial.done = [false] := by
  exact ⟨by rfl, rfl, by rfl⟩

theorem fill_phase_trialabort_reassigns_slot_witness :
    (c9Exp.trial_instances[c9Exp.trial_index]? = some c9Trial) ∧
      ∃ t', c9Exp.fillStep .raiseAbort =
          .ok ({ c9Exp with
              trial_instances := c9Exp.trial_instances.set c9Exp.trial_index t'
              trial_arg_configs := c9Exp.trial_arg_configs.dropLast
              trial_index := (c9Exp.trial_index + 1) % c9Exp.trial_instances.length },
            [c9Trial.results], [[("n", 3)]]) ∧
        t'.done = false ∧ t'.stage_index = 0 ∧ t'.running = false :=
  ⟨rfl,
    fill_phase_trialabort_reassigns_slot c9Exp c9Trial [] [("n", 3)]
      rfl rfl (by decide) rfl rfl rfl rfl⟩
